import Mathlib

/-!
# Verification of the merge-and-classify engine of the NYC asthma failure map

Shallow embedding of the analytical core of the pipeline:

* `scripts/04_merge_datasets.py` — dataset merger (left joins onto the
  42-neighborhood base geography, provider aggregation, derived metrics);
* `scripts/05_calculate_classes.py` — bivariate tercile classifier
  (`pd.qcut(..., q=3, labels=False, duplicates="drop")`, inversion of the
  access dimension, failure-zone / at-risk flags);
* `scripts/07_validation.py` — statistical validator (Pearson/Spearman
  correlation, Welch t-tests, redlining overlap analysis);
* `src/asthma_map/io_utils.py` — atomic file writing.

Machine floats of pandas/NumPy are modelled by `PVal`: a rational number,
`nan`, or a signed infinity, with NumPy's arithmetic rules (division by zero
of a positive number gives `inf`, `0/0` gives `nan`, `nan` propagates).
Statistics whose values involve a square root (Pearson r, Welch t) are
carried as their exact rational squares, which determines their
nan/inf/finite status exactly; p-values are deterministic monotone
transforms of those statistics and the sample sizes and are not separately
modelled, since no claim depends on their numeric value.
-/

/- Core marks the rational primitives `@[irreducible]`, which blocks
`decide` on concrete rational computations; the kernel reduces them fine,
so restore the default reducibility. -/
namespace AsthmaMap

attribute [local semireducible] Rat.mul Rat.inv Rat.add Rat.sub

/-! ## Pandas / NumPy scalar values -/

/-- A pandas/NumPy float64 cell: `nan` (pandas "null"), `±inf`, or a finite
value modelled as an exact rational. -/
inductive PVal where
  | nan : PVal
  | inf : PVal
  | ninf : PVal
  | fin (q : ℚ) : PVal
deriving DecidableEq, Repr

/-- A nullable column cell (`Option ℚ`) seen as a float: pandas stores
missing entries of a numeric column as `NaN`. -/
def PVal.ofOpt : Option ℚ → PVal
  | none => .nan
  | some q => .fin q

/-- NumPy float division.  `nan` propagates; a nonzero finite number divided
by zero gives a signed infinity and `0/0` gives `nan` (IEEE-754 semantics,
which NumPy follows, emitting only a `RuntimeWarning`). -/
def PVal.div : PVal → PVal → PVal
  | .nan, _ => .nan
  | _, .nan => .nan
  | .fin a, .fin b =>
      if b ≠ 0 then .fin (a / b)
      else if a > 0 then .inf
      else if a < 0 then .ninf
      else .nan
  | .fin _, .inf => .fin 0
  | .fin _, .ninf => .fin 0
  | .inf, .fin b => if b < 0 then .ninf else .inf
  | .ninf, .fin b => if b < 0 then .inf else .ninf
  | .inf, .inf => .nan
  | .inf, .ninf => .nan
  | .ninf, .inf => .nan
  | .ninf, .ninf => .nan

/-- NumPy float multiplication (only the cases reachable in the pipeline
matter: finite·finite, and infinities scaled by finite constants). -/
def PVal.mul : PVal → PVal → PVal
  | .nan, _ => .nan
  | _, .nan => .nan
  | .fin a, .fin b => .fin (a * b)
  | .inf, .fin b => if b > 0 then .inf else if b < 0 then .ninf else .nan
  | .ninf, .fin b => if b > 0 then .ninf else if b < 0 then .inf else .nan
  | .fin a, .inf => if a > 0 then .inf else if a < 0 then .ninf else .nan
  | .fin a, .ninf => if a > 0 then .ninf else if a < 0 then .inf else .nan
  | .inf, .inf => .inf
  | .inf, .ninf => .ninf
  | .ninf, .inf => .ninf
  | .ninf, .ninf => .inf

/-- Floor of a rational (`num.fdiv den`, flooring division). -/
def qfloor (q : ℚ) : ℤ := q.num.fdiv q.den

/-- Round a rational to the nearest integer, ties to even (the rule NumPy
and Python `round` use). -/
def rhe (q : ℚ) : ℤ :=
  if q - qfloor q < 1/2 then qfloor q
  else if q - qfloor q > 1/2 then qfloor q + 1
  else if qfloor q % 2 = 0 then qfloor q else qfloor q + 1

/-- Round a rational to `d` decimal places, ties to even (`Series.round(d)`
/ `round(x, d)` on the idealized reals). -/
def roundQ (d : ℕ) (q : ℚ) : ℚ := (rhe (q * 10 ^ d) : ℚ) / 10 ^ d

/-- `Series.round(d)` on a float cell: `nan` and infinities are unchanged. -/
def PVal.roundTo (d : ℕ) : PVal → PVal
  | .fin q => .fin (roundQ d q)
  | v => v

/-- `Series.mean()` of a nullable column: pandas skips missing values and
returns `NaN` for an all-missing (or empty) column. -/
def meanOpt (col : List (Option ℚ)) : PVal :=
  let v := col.filterMap id
  if v.length = 0 then .nan else .fin (v.sum / v.length)

/-- `Series.sum()` of a nullable column: pandas skips missing values
(an all-missing column sums to `0`). -/
def sumOpt (col : List (Option ℚ)) : ℚ := (col.filterMap id).sum

/-! ## `DataFrame.merge(..., how="left")`

A pandas left merge keeps every left row; a left row with no key match gets
null right-hand columns, and one with several matches is duplicated once per
match.  `combine` builds the output row from the left row and the optional
matched right row. -/

/-- `left.merge(right, on=key, how="left")`. -/
def leftJoin {α β γ : Type} (left : List α) (right : List β)
    (keyL : α → ℤ) (keyR : β → ℤ) (combine : α → Option β → γ) : List γ :=
  left.flatMap fun a =>
    match right.filter (fun b => keyR b = keyL a) with
    | [] => [combine a none]
    | ms => ms.map fun m => combine a (some m)

/-! ## Script 04 — dataset merger

Input tables, with the columns the merge step actually consumes:

* the base geography `uhf_gdf` (after dropping the citywide `GEOCODE == 0`
  polygon): 42 rows of code / name / borough (+ geometry, irrelevant here);
* the combined ER table from `load_er_data()`: per-code rates per age band,
  already `to_numeric`-coerced so a suppressed value is null (the unused
  count columns are omitted);
* the population table: per-code child population;
* the provider summary from `aggregate_providers`. -/

structure BaseRow where
  uhf_code : ℤ
  uhf_name : String
  borough : String
deriving DecidableEq, Repr

structure ErRow where
  uhf_code : ℤ
  er_rate_under5 : Option ℚ
  er_rate_5to17 : Option ℚ
deriving DecidableEq, Repr

structure PopRow where
  uhf_code : ℤ
  child_population : ℚ
deriving DecidableEq, Repr

structure ProvSum where
  uhf_code : ℤ
  total_providers : ℕ
  pulmonology_count : ℕ
  allergy_count : ℕ
  pediatrics_count : ℕ
deriving DecidableEq, Repr

/-- A merged row right after the three left joins (before `fillna`):
every joined column is still nullable. -/
structure RawMerged where
  uhf_code : ℤ
  uhf_name : String
  borough : String
  er_rate_under5 : Option ℚ
  er_rate_5to17 : Option ℚ
  child_population : Option ℚ
  provOpt : Option ProvSum
deriving DecidableEq, Repr

/-- The three `merge(..., how="left")` calls of `main` in
`04_merge_datasets.py` (lines 158–164), keyed by `uhf_code`. -/
def mergeJoins (base : List BaseRow) (er : List ErRow) (pop : List PopRow)
    (prov : List ProvSum) : List RawMerged :=
  leftJoin
    (leftJoin
      (leftJoin base er (·.uhf_code) (·.uhf_code) fun b e =>
        (b, e))
      pop (fun p => p.1.uhf_code) (·.uhf_code) fun be p =>
        (be.1, be.2, p))
    prov (fun t => t.1.uhf_code) (·.uhf_code) fun bep pr =>
      { uhf_code := bep.1.uhf_code
        uhf_name := bep.1.uhf_name
        borough := bep.1.borough
        er_rate_under5 := bep.2.1.bind (·.er_rate_under5)
        er_rate_5to17 := bep.2.1.bind (·.er_rate_5to17)
        child_population := bep.2.2.map (·.child_population)
        provOpt := pr }

/-- A fully merged analysis row: provider counts filled with integer `0`
(`fillna(0).astype(int)`, lines 167–168) and the derived metrics of the
`calculate_metrics` step (lines 177–192). -/
structure MergedRow where
  uhf_code : ℤ
  uhf_name : String
  borough : String
  child_population : Option ℚ
  er_rate_under5 : Option ℚ
  er_rate_5to17 : Option ℚ
  er_rate_combined : ℚ
  er_pct_of_avg : PVal
  total_providers : ℕ
  pulmonology_count : ℕ
  allergy_count : ℕ
  pediatrics_count : ℕ
  providers_per_10k : PVal
  provider_pct_of_avg : PVal
deriving DecidableEq, Repr

/-- `fillna(0)` for one provider-count column. -/
def countOr0 (o : Option ProvSum) (f : ProvSum → ℕ) : ℕ := (o.map f).getD 0

/-- The derived-metric step of `main` (lines 177–192):

* `providers_per_10k = round((total_providers / child_population) * 10000, 2)`
  — a pandas float division, so a null population propagates `NaN` while a
  zero population yields `inf` (or `NaN` when the count is also zero);
* `er_rate_combined = round((under5.fillna(0) + r5to17.fillna(0)) / 2, 1)`;
* percent-of-citywide columns against the mean ER rate and the
  population-weighted citywide provider rate. -/
def addMetrics (rows : List RawMerged) : List MergedRow :=
  let citywide_er_rate : PVal := meanOpt (rows.map (·.er_rate_5to17))
  let citywide_provider_rate : PVal :=
    (PVal.fin (rows.map (fun r => ((countOr0 r.provOpt (·.total_providers) : ℚ)))).sum).div
      (PVal.fin (sumOpt (rows.map (·.child_population)))) |>.mul (.fin 10000)
  rows.map fun r =>
    let total := countOr0 r.provOpt (·.total_providers)
    let per10k :=
      (((PVal.fin (total : ℚ)).div (PVal.ofOpt r.child_population)).mul
        (.fin 10000)).roundTo 2
    { uhf_code := r.uhf_code
      uhf_name := r.uhf_name
      borough := r.borough
      child_population := r.child_population
      er_rate_under5 := r.er_rate_under5
      er_rate_5to17 := r.er_rate_5to17
      er_rate_combined :=
        roundQ 1 ((r.er_rate_under5.getD 0 + r.er_rate_5to17.getD 0) / 2)
      er_pct_of_avg :=
        (((PVal.ofOpt r.er_rate_5to17).div citywide_er_rate).mul
          (.fin 100)).roundTo 1
      total_providers := total
      pulmonology_count := countOr0 r.provOpt (·.pulmonology_count)
      allergy_count := countOr0 r.provOpt (·.allergy_count)
      pediatrics_count := countOr0 r.provOpt (·.pediatrics_count)
      providers_per_10k := per10k
      provider_pct_of_avg :=
        ((per10k.div citywide_provider_rate).mul (.fin 100)).roundTo 1 }

/-- The whole merge stage of `04_merge_datasets.py`: joins, count fill,
derived metrics. -/
def mergeDatasets (base : List BaseRow) (er : List ErRow) (pop : List PopRow)
    (prov : List ProvSum) : List MergedRow :=
  addMetrics (mergeJoins base er pop prov)

/-! ## Script 04 — `aggregate_providers` (lines 89–117)

Specialty categories are detected by case-insensitive substring matching on
the free-text `taxonomy_desc` (`Series.str.contains(..., case=False,
na=False)`; the pattern `"Allergy|Immunology"` is a regex alternation of two
literal fragments). -/

/-- `leadsWith pat s`: `s` starts with `pat` (character lists). -/
def leadsWith : List Char → List Char → Bool
  | [], _ => true
  | _ :: _, [] => false
  | a :: as, b :: bs => a == b && leadsWith as bs

/-- `hasSub pat s`: `pat` occurs as a contiguous substring of `s`. -/
def hasSub (pat : List Char) : List Char → Bool
  | [] => pat.isEmpty
  | c :: cs => leadsWith pat (c :: cs) || hasSub pat cs

/-- Lower-cased character list of a string. -/
def lowerChars (s : String) : List Char := s.toList.map Char.toLower

/-- `col.str.contains(pat, case=False, na=False)` on one cell: a missing
description never matches. -/
def containsCI (pat : String) : Option String → Bool
  | none => false
  | some s => hasSub (lowerChars pat) (lowerChars s)

/-- Line 105: `taxonomy_desc` contains `"Pulmon"` (case-insensitive). -/
def pulmMatch (d : Option String) : Bool := containsCI "Pulmon" d

/-- Line 106: contains `"Allergy"` or `"Immunology"`. -/
def allergyMatch (d : Option String) : Bool :=
  containsCI "Allergy" d || containsCI "Immunology" d

/-- Lines 107–108: contains `"Pediatric"` and not `"Pulmon"` (pediatric
pulmonologists count only toward pulmonology). -/
def pedsMatch (d : Option String) : Bool :=
  containsCI "Pediatric" d && !pulmMatch d

/-- One row of `providers_geocoded.csv` as `aggregate_providers` sees it. -/
structure ProviderRow where
  npi : ℤ
  taxonomy_desc : Option String
  uhf_code : Option ℤ
deriving DecidableEq, Repr

/-- Remove adjacent duplicates of a list (with sorted input this is exactly
`np.unique` after the sort). -/
def adjDedup {α : Type} [DecidableEq α] : List α → List α
  | [] => []
  | [a] => [a]
  | a :: b :: rest =>
      if a = b then adjDedup (b :: rest) else a :: adjDedup (b :: rest)

/-- `aggregate_providers` (lines 89–117): filter to rows with a neighborhood
assignment, group by `uhf_code` (pandas `groupby` sorts the keys), count all
rows per code (`npi: "count"`) and the rows matching each specialty rule;
codes absent from a specialty count get `0` via `.map(...).fillna(0)`. -/
def aggregate_providers (ps : List ProviderRow) : List ProvSum :=
  let valid := ps.filter (fun p => p.uhf_code.isSome)
  let codes := adjDedup (List.insertionSort (· ≤ ·) (valid.filterMap (·.uhf_code)))
  codes.map fun c =>
    { uhf_code := c
      total_providers := valid.countP (fun p => p.uhf_code == some c)
      pulmonology_count :=
        valid.countP (fun p => p.uhf_code == some c && pulmMatch p.taxonomy_desc)
      allergy_count :=
        valid.countP (fun p => p.uhf_code == some c && allergyMatch p.taxonomy_desc)
      pediatrics_count :=
        valid.countP (fun p => p.uhf_code == some c && pedsMatch p.taxonomy_desc) }

/-! ## Script 05 — bivariate classifier

`pd.qcut(series, q=3, labels=False, duplicates="drop")` over a nullable
column:

1. quantile cut points of the non-null values at `p = 0, 1/3, 2/3, 1`
   (`np.quantile`, linear interpolation on the sorted values);
2. `np.unique` of the cut points (sort + de-duplicate) under
   `duplicates="drop"`;
3. each value is placed by a binary search for the first edge `≥ x`
   (`searchsorted(..., side="left")`, i.e. the number of edges `< x`),
   values equal to the lowest edge are pulled into the first bin
   (`include_lowest`), and an index falling before the first or after the
   last edge is null;
4. null inputs stay null. -/

/-- The integer part of the fractional index `h = p * (n - 1)` that
`np.quantile` interpolates at. -/
def qIdx (vs : List ℚ) (p : ℚ) : ℕ :=
  (qfloor (p * ((vs.length : ℚ) - 1))).toNat

/-- The fractional part of the index `np.quantile` interpolates at. -/
def qGamma (vs : List ℚ) (p : ℚ) : ℚ :=
  p * ((vs.length : ℚ) - 1) - (qIdx vs p : ℚ)

/-- `np.quantile(vs, p)` with the default linear interpolation, for `vs`
already sorted: the value at fractional index `h = p * (n - 1)`. -/
def quantileInterp (vs : List ℚ) (p : ℚ) : ℚ :=
  vs.getD (qIdx vs p) 0 +
    qGamma vs p *
      (vs.getD (qIdx vs p + 1) (vs.getD (qIdx vs p) 0) - vs.getD (qIdx vs p) 0)

/-- The (deduplicated) tercile cut points of the non-null values. -/
def tercEdges (nonNull : List ℚ) : List ℚ :=
  let sorted := List.insertionSort (· ≤ ·) nonNull
  adjDedup (List.insertionSort (· ≤ ·)
    [quantileInterp sorted 0, quantileInterp sorted (1/3),
     quantileInterp sorted (2/3), quantileInterp sorted 1])

/-- The `searchsorted(..., side="left")` index of `_bins_to_cuts`: the
number of edges strictly below `x`, with `include_lowest` sending a value
equal to the first edge to index `1`. -/
def binIds (edges : List ℚ) (x : ℚ) : ℕ :=
  if edges.head? = some x then 1 else edges.countP (fun e => decide (e < x))

/-- Bin index of a value against sorted edges (`_bins_to_cuts`): the
searchsorted index minus one; an index falling before the first or after
the last edge is null. -/
def binLabel (edges : List ℚ) (x : ℚ) : Option ℕ :=
  if binIds edges x = 0 ∨ binIds edges x = edges.length then none
  else some (binIds edges x - 1)

/-- `calculate_terciles` (lines 36–50): qcut labels shifted to `1..3`, and
inverted by `4 - tercile` when `reverse` is set (the access dimension). -/
def calculate_terciles (col : List (Option ℚ)) (reverse : Bool) :
    List (Option ℕ) :=
  let edges := tercEdges (col.filterMap id)
  col.map fun o =>
    o.bind fun x =>
      (binLabel edges x).map fun l => if reverse then 4 - (l + 1) else l + 1

/-- The columns of one input row `main` of `05_calculate_classes.py` uses to
classify. -/
structure Class5In where
  uhf_code : ℤ
  er_rate_5to17 : Option ℚ
  providers_per_10k : Option ℚ
deriving DecidableEq, Repr

/-- One classified row: terciles, failure-zone and at-risk flags.  The
terciles are nullable floats in pandas, so a flag comparison such as
`er_tercile == 3` is `false` on a null tercile. -/
structure ClassRow where
  uhf_code : ℤ
  er_tercile : Option ℕ
  access_tercile : Option ℕ
  is_failure_zone : Bool
  is_at_risk : Bool
deriving DecidableEq, Repr

/-- The classification step of `main` (lines 75–115): ER terciles
(not reversed), access terciles (reversed), and the two flag columns
`is_failure_zone` (line 105) and `is_at_risk` (lines 114–115). -/
def classify (rows : List Class5In) : List ClassRow :=
  let erT := calculate_terciles (rows.map (·.er_rate_5to17)) false
  let accT := calculate_terciles (rows.map (·.providers_per_10k)) true
  (rows.zip (erT.zip accT)).map fun rt =>
    let et := rt.2.1
    let at_ := rt.2.2
    { uhf_code := rt.1.uhf_code
      er_tercile := et
      access_tercile := at_
      is_failure_zone := et == some 3 && at_ == some 3
      is_at_risk :=
        (et == some 3 && at_ == some 2) || (et == some 2 && at_ == some 3) }

/-! ## Script 07 — statistical validator

The statistics are modelled exactly up to the final square root: Pearson's
`r` and Welch's `t` are carried as their rational squares (`r²`, `t²`), which
pin down their nan/inf/finite status and magnitude; the reported `r`/`t` is
the signed square root and the p-values are deterministic monotone transforms
of these and the sample sizes, so no claim depends on more. -/

/-- One row of `uhf_classified.geojson` as `07_validation.py` consumes it,
with geometry abstracted to a type `G` (area computations are supplied as
functions, standing for the projected-CRS shapely calls). -/
structure V7Row (G : Type) where
  uhf_code : ℤ
  uhf_name : String
  er_rate_5to17 : Option ℚ
  providers_per_10k : Option ℚ
  child_population : Option ℚ
  is_failure_zone : Bool
  geom : G
deriving DecidableEq, Repr

/-- Arithmetic mean of a (non-null) list. -/
def mean (xs : List ℚ) : ℚ := xs.sum / xs.length

/-- Centered cross-product sum `Σ (x - x̄)(y - ȳ)`. -/
def covSum (xs ys : List ℚ) : ℚ :=
  ((xs.zip ys).map (fun p => (p.1 - mean xs) * (p.2 - mean ys))).sum

/-- Centered square sum `Σ (x - x̄)²`. -/
def varSum (xs : List ℚ) : ℚ := (xs.map (fun x => (x - mean xs) ^ 2)).sum

/-- The square of Pearson's correlation coefficient, with NumPy division
semantics: a constant input makes both the numerator and denominator `0`, so
`r²` is `nan`, matching scipy's `ConstantInputWarning` + `nan` result. -/
def pearsonR2 (xs ys : List ℚ) : PVal :=
  (PVal.fin ((covSum xs ys) ^ 2)).div (.fin (varSum xs * varSum ys))

/-- Fractional average ranks (`scipy.stats.rankdata`, the tie method
Spearman uses): rank of `x` = (number of smaller values) + (ties + 1)/2. -/
def rankAvg (xs : List ℚ) : List ℚ :=
  xs.map fun x =>
    (xs.countP (fun y => decide (y < x)) : ℚ) +
      ((xs.countP (fun y => y == x) : ℚ) + 1) / 2

/-- The square of Spearman's rho: Pearson's `r²` of the average ranks. -/
def spearmanRho2 (xs ys : List ℚ) : PVal :=
  pearsonR2 (rankAvg xs) (rankAvg ys)

/-- The correlation section of the validation report. -/
structure CorrResult where
  n_observations : ℕ
  pearson_r_sq : PVal
  spearman_rho_sq : PVal
deriving DecidableEq, Repr

/-- `correlation_analysis` (lines 57–101): restrict to rows where both
metrics are non-null and call `scipy.stats.pearsonr` then
`scipy.stats.spearmanr`.  `pearsonr` raises
`ValueError: x and y must have length at least 2.` when the filtered set has
fewer than 2 rows, which aborts the function (and the run). -/
def correlation_analysis {G : Type} (rows : List (V7Row G)) :
    Except String CorrResult :=
  let valid := rows.filter
    (fun r => r.er_rate_5to17.isSome && r.providers_per_10k.isSome)
  let er_rates := valid.filterMap (·.er_rate_5to17)
  let provider_rates := valid.filterMap (·.providers_per_10k)
  if er_rates.length < 2 then
    .error "x and y must have length at least 2."
  else
    .ok { n_observations := valid.length
          pearson_r_sq := pearsonR2 er_rates provider_rates
          spearman_rho_sq := spearmanRho2 er_rates provider_rates }

/-- The square of Welch's unequal-variance t statistic
(`scipy.stats.ttest_ind(..., equal_var=False)`).  A group with fewer than 2
observations makes the statistic `nan` (mean of an empty array, or sample
variance with `ddof=1` of a single observation); two 0-variance groups with
different means give `inf` (division by zero), with equal means `nan`. -/
def welchT2 (xs ys : List ℚ) : PVal :=
  if xs.length < 2 ∨ ys.length < 2 then .nan
  else
    let v1 := varSum xs / ((xs.length : ℚ) - 1)
    let v2 := varSum ys / ((ys.length : ℚ) - 1)
    (PVal.fin ((mean xs - mean ys) ^ 2)).div
      (.fin (v1 / xs.length + v2 / ys.length))

/-- Per-group summary of `failure_zone_ttest` (pandas `.mean()` skips nulls
and is `nan` on an empty group; the children sum of an empty group is `0`). -/
structure GroupStats where
  count : ℕ
  mean_er_rate : PVal
  mean_provider_rate : PVal
  total_children : ℚ
deriving DecidableEq, Repr

/-- The t-test section of the validation report.  The `significant` flags of
the source are `p < 0.05` with a `nan` p comparing false; `p` is a monotone
transform of `t²` and the group sizes, not separately modelled. -/
structure TTestResult where
  failure_zones : GroupStats
  other_zones : GroupStats
  er_rate_t_sq : PVal
  provider_rate_t_sq : PVal
deriving DecidableEq, Repr

/-- `failure_zone_ttest` (lines 104–159): split on `is_failure_zone`,
summarize each group, and run Welch's t-test on the `dropna()`-ed metric
columns.  Never raises. -/
def failure_zone_ttest {G : Type} (rows : List (V7Row G)) : TTestResult :=
  let failure := rows.filter (·.is_failure_zone)
  let non_failure := rows.filter (fun r => !r.is_failure_zone)
  { failure_zones :=
      { count := failure.length
        mean_er_rate := (meanOpt (failure.map (·.er_rate_5to17))).roundTo 2
        mean_provider_rate :=
          (meanOpt (failure.map (·.providers_per_10k))).roundTo 2
        total_children := sumOpt (failure.map (·.child_population)) }
    other_zones :=
      { count := non_failure.length
        mean_er_rate := (meanOpt (non_failure.map (·.er_rate_5to17))).roundTo 2
        mean_provider_rate :=
          (meanOpt (non_failure.map (·.providers_per_10k))).roundTo 2
        total_children := sumOpt (non_failure.map (·.child_population)) }
    er_rate_t_sq :=
      welchT2 (failure.filterMap (·.er_rate_5to17))
        (non_failure.filterMap (·.er_rate_5to17))
    provider_rate_t_sq :=
      welchT2 (failure.filterMap (·.providers_per_10k))
        (non_failure.filterMap (·.providers_per_10k)) }

/-- One HOLC overlay polygon with its categorical grade. -/
structure HolcZone (G : Type) where
  grade : String
  geom : G
deriving DecidableEq, Repr

/-- One row of the per-neighborhood overlap table built by
`redlining_analysis`. -/
structure RedRow where
  uhf_code : ℤ
  uhf_name : String
  is_failure_zone : Bool
  pct_historically_redlined : ℚ
  er_rate : Option ℚ
deriving DecidableEq, Repr

/-- The redlining section of the validation report.  `correlation_r_sq` is
the square of the reported Pearson `r`; the source substitutes `None` both
when the correlation was skipped (`len(valid) <= 5`) and when scipy returned
`nan`. -/
structure RedResult where
  total_neighborhoods : ℕ
  avg_pct_redlined_failure_zones : Option ℚ
  avg_pct_redlined_other_zones : Option ℚ
  correlation_r_sq : Option ℚ
  top_redlined : List RedRow
deriving DecidableEq, Repr

/-- `round(mean, 2)` of a list that is `None` when the list is empty (the
source's `round(x, 2) if not np.isnan(x) else None` on a pandas mean). -/
def optMean2 (xs : List ℚ) : Option ℚ :=
  if xs.length = 0 then none else some (roundQ 2 (mean xs))

/-- `redlining_analysis` (lines 162–240): absent without HOLC data or
without grade-D zones; otherwise computes, per neighborhood, the percentage
of its area intersected by grade-D zones (areas in the projected CRS are
supplied by `area` / `interArea`), compares failure vs other zones, and runs
`pearsonr` against the ER rate only when more than 5 neighborhoods have a
non-null ER rate (lines 213–220), reporting `None` otherwise. -/
def redlining_analysis {G : Type} (interArea : G → G → ℚ) (area : G → ℚ)
    (rows : List (V7Row G)) (holc : Option (List (HolcZone G))) :
    Option RedResult :=
  match holc with
  | none => none
  | some zones =>
    let redlined := zones.filter (fun z => z.grade == "D")
    if redlined.length = 0 then none
    else
      let results : List RedRow := rows.map fun r =>
        let redlined_area := (redlined.map (fun z => interArea z.geom r.geom)).sum
        let total_area := area r.geom
        let pct := if total_area > 0 then redlined_area / total_area * 100 else 0
        { uhf_code := r.uhf_code
          uhf_name := r.uhf_name
          is_failure_zone := r.is_failure_zone
          pct_historically_redlined := roundQ 2 pct
          er_rate := r.er_rate_5to17 }
      let valid := results.filter (fun x => x.er_rate.isSome)
      some
        { total_neighborhoods := results.length
          avg_pct_redlined_failure_zones :=
            optMean2 ((results.filter (·.is_failure_zone)).map
              (·.pct_historically_redlined))
          avg_pct_redlined_other_zones :=
            optMean2 ((results.filter (fun x => !x.is_failure_zone)).map
              (·.pct_historically_redlined))
          correlation_r_sq :=
            if valid.length > 5 then
              match pearsonR2 (valid.map (·.pct_historically_redlined))
                  (valid.filterMap (·.er_rate)) with
              | .fin q => some q
              | _ => none
            else none
          top_redlined :=
            (List.insertionSort
              (fun a b : RedRow =>
                a.pct_historically_redlined ≥ b.pct_historically_redlined)
              results).take 5 }

/-- The whole validation report. -/
structure Report where
  correlation : CorrResult
  ttest : TTestResult
  redlining : Option RedResult
deriving DecidableEq, Repr

/-- `main` of `07_validation.py`: correlation first (whose `ValueError`
for an undersized sample aborts the run), then the t-tests, then the
optional redlining analysis. -/
def run_validation {G : Type} (interArea : G → G → ℚ) (area : G → ℚ)
    (rows : List (V7Row G)) (holc : Option (List (HolcZone G))) :
    Except String Report :=
  match correlation_analysis rows with
  | .error e => .error e
  | .ok corr =>
      .ok { correlation := corr
            ttest := failure_zone_ttest rows
            redlining := redlining_analysis interArea area rows holc }

/-! ## `io_utils.atomic_write` vs the direct write of the validation report

A file system is a finite map from paths to contents; a write attempt either
completes with the full content or fails after some truncated portion has
been written (`open(path, "w")` truncates immediately and the writer streams
into the file). -/

/-- Association-list file system: path to content. -/
abbrev FS := List (String × String)

/-- Content at a path, if the file exists. -/
def FS.get (fs : FS) (p : String) : Option String :=
  (fs.find? (fun e => e.1 == p)).map (·.2)

/-- Delete a path. -/
def FS.erase (fs : FS) (p : String) : FS := fs.filter (fun e => e.1 != p)

/-- Create or overwrite a path. -/
def FS.set (fs : FS) (p : String) (c : String) : FS := (p, c) :: FS.erase fs p

/-- What a `write_func(path, ...)` call does to the file it was handed:
succeed with the complete serialized content, or raise after a truncated
portion was already written. -/
inductive WriteOutcome where
  | ok (content : String)
  | fail (writtenSoFar : String)
deriving DecidableEq, Repr

/-- Result of a Python-level write: whether an exception propagated, and the
resulting file system. -/
structure WResult where
  raised : Bool
  fs : FS
deriving DecidableEq, Repr

/-- `io_utils.atomic_write` (lines 17–40): `mkstemp` creates a fresh
temporary file next to the target, `write_func` writes it, and on success
`temp_path.replace(target_path)` atomically renames it over the target; on
failure the temporary file is unlinked and the exception re-raised. -/
def atomic_write (fs : FS) (target temp : String) (w : WriteOutcome) :
    WResult :=
  let fs1 := FS.set fs temp ""
  match w with
  | .ok c =>
      let fs2 := FS.set fs1 temp c
      { raised := false, fs := FS.set (FS.erase fs2 temp) target c }
  | .fail c =>
      let fs2 := FS.set fs1 temp c
      { raised := true, fs := FS.erase fs2 temp }

/-- The direct write used by `save_validation_report` (lines 243–261,
`open(output_path, "w")` + `json.dump`) and by the neighborhoods/providers
exports of `06_export_for_web.py` (lines 110–111, 177–178): the final path
itself is truncated and written in place. -/
def plain_write (fs : FS) (target : String) (w : WriteOutcome) : WResult :=
  match w with
  | .ok c => { raised := false, fs := FS.set fs target c }
  | .fail c => { raised := true, fs := FS.set fs target c }

/-! ## Helper lemmas -/

/-- With unique keys on the right, filtering for one key yields the
`find?` result (at most one row). -/
theorem filter_eq_find_toList {β : Type} (keyR : β → ℤ) (c : ℤ) (right : List β)
    (h : (right.map keyR).Nodup) :
    right.filter (fun b => keyR b = c) = (right.find? (fun b => keyR b = c)).toList := by
  induction right with
  | nil => rfl
  | cons a t ih =>
      simp only [List.map_cons, List.nodup_cons] at h
      by_cases hac : keyR a = c
      · have ht : t.filter (fun b => decide (keyR b = c)) = [] := by
          refine List.filter_eq_nil_iff.mpr ?_
          intro x hx
          simp only [decide_eq_true_eq]
          intro hkx
          exact h.1 (by simpa [hkx, hac] using List.mem_map_of_mem keyR hx)
        simp [List.filter_cons, List.find?_cons, hac, ht]
      · simp [List.filter_cons, List.find?_cons, hac, ih h.2]

/-- With unique keys on the right, a pandas left merge is a plain map over
the left table: each left row is paired with its unique match, if any. -/
theorem leftJoin_eq_map {α β γ : Type} (left : List α) (right : List β)
    (keyL : α → ℤ) (keyR : β → ℤ) (combine : α → Option β → γ)
    (h : (right.map keyR).Nodup) :
    leftJoin left right keyL keyR combine =
      left.map (fun a => combine a (right.find? (fun b => keyR b = keyL a))) := by
  induction left with
  | nil => rfl
  | cons a t ih =>
      simp only [leftJoin, List.flatMap_cons, List.map_cons] at *
      rw [filter_eq_find_toList keyR (keyL a) right h]
      cases hf : right.find? (fun b => keyR b = keyL a) <;>
        simp [hf, ← ih, leftJoin]

/-- The row the three joins of `mergeJoins` produce for one base row, when
each joined table has unique keys. -/
def joinedRow (er : List ErRow) (pop : List PopRow) (prov : List ProvSum)
    (b : BaseRow) : RawMerged :=
  { uhf_code := b.uhf_code
    uhf_name := b.uhf_name
    borough := b.borough
    er_rate_under5 :=
      (er.find? (fun e => e.uhf_code = b.uhf_code)).bind (·.er_rate_under5)
    er_rate_5to17 :=
      (er.find? (fun e => e.uhf_code = b.uhf_code)).bind (·.er_rate_5to17)
    child_population :=
      (pop.find? (fun p => p.uhf_code = b.uhf_code)).map (·.child_population)
    provOpt := prov.find? (fun p => p.uhf_code = b.uhf_code) }

/-- Closed form of `mergeJoins` when the three joined tables have unique
keys. -/
theorem mergeJoins_eq_map (base : List BaseRow) (er : List ErRow)
    (pop : List PopRow) (prov : List ProvSum)
    (her : (er.map (·.uhf_code)).Nodup) (hpop : (pop.map (·.uhf_code)).Nodup)
    (hprov : (prov.map (·.uhf_code)).Nodup) :
    mergeJoins base er pop prov = base.map (joinedRow er pop prov) := by
  unfold mergeJoins
  rw [leftJoin_eq_map _ _ _ _ _ her, leftJoin_eq_map _ _ _ _ _ hpop,
    leftJoin_eq_map _ _ _ _ _ hprov, List.map_map, List.map_map]
  rfl

/-- Field-level description of a row of `addMetrics rows` in terms of its
pre-metric row. -/
theorem mem_addMetrics {rows : List RawMerged} {r : MergedRow}
    (h : r ∈ addMetrics rows) :
    ∃ raw ∈ rows,
      r.uhf_code = raw.uhf_code ∧
      r.child_population = raw.child_population ∧
      r.er_rate_under5 = raw.er_rate_under5 ∧
      r.er_rate_5to17 = raw.er_rate_5to17 ∧
      r.total_providers = countOr0 raw.provOpt (·.total_providers) ∧
      r.pulmonology_count = countOr0 raw.provOpt (·.pulmonology_count) ∧
      r.allergy_count = countOr0 raw.provOpt (·.allergy_count) ∧
      r.pediatrics_count = countOr0 raw.provOpt (·.pediatrics_count) ∧
      r.er_rate_combined =
        roundQ 1 ((raw.er_rate_under5.getD 0 + raw.er_rate_5to17.getD 0) / 2) ∧
      r.providers_per_10k =
        (((PVal.fin ((countOr0 raw.provOpt (·.total_providers) : ℕ) : ℚ)).div
          (PVal.ofOpt raw.child_population)).mul (.fin 10000)).roundTo 2 := by
  obtain ⟨raw, hraw, rfl⟩ := List.mem_map.mp h
  exact ⟨raw, hraw, rfl, rfl, rfl, rfl, rfl, rfl, rfl, rfl, rfl, rfl⟩

/-- `addMetrics` preserves the code column. -/
theorem addMetrics_map_code (rows : List RawMerged) :
    (addMetrics rows).map (·.uhf_code) = rows.map (·.uhf_code) := by
  unfold addMetrics
  rw [List.map_map]
  rfl

/-- A list whose elements all map to `some` keeps its length under
`filterMap`. -/
theorem length_filterMap_of_isSome {α β : Type} (f : α → Option β)
    (l : List α) (h : ∀ x ∈ l, (f x).isSome) :
    (l.filterMap f).length = l.length := by
  induction l with
  | nil => rfl
  | cons a t ih =>
      rw [List.filterMap_cons]
      cases hf : f a with
      | none => exact absurd (hf ▸ h a (by simp)) (by simp)
      | some b => simp [ih (fun x hx => h x (by simp [hx]))]

/-! ## C1 — `providers_per_10k` on a zero or null population

The claim: a zero **or** null `child_population` yields a null
`providers_per_10k` (never zero, infinity, or an exception).  The code
(line 177) divides pandas series; a **null** population propagates `NaN`,
but a **zero** population with a positive provider count follows IEEE/NumPy
division and yields `inf`, which `round(2)` preserves.  The claim fails on
the zero-population case; the amended statement keeps the null case and
`0/0`, and records `inf` for `n/0` with `n > 0`. -/

/-- C1 (counterexample): a neighborhood with `child_population = 0` and
`total_providers = 5` gets `providers_per_10k = inf` — not null, refuting
the claim that a zero population always yields null. -/
theorem c1_zero_population_gives_inf :
    (mergeDatasets [{ uhf_code := 101, uhf_name := "A", borough := "BX" }] []
        [{ uhf_code := 101, child_population := 0 }]
        [{ uhf_code := 101, total_providers := 5, pulmonology_count := 0,
           allergy_count := 0, pediatrics_count := 0 }]).map
      (·.providers_per_10k) = [PVal.inf] ∧
    PVal.inf ≠ PVal.nan ∧ PVal.inf ≠ PVal.fin 0 := by
  refine ⟨by decide, by decide, by decide⟩

/-- C1 (amended): for every merged row, a null population gives a null
`providers_per_10k`; a zero population gives null exactly when the provider
count is also zero, and `inf` when it is positive; the computation is total
(never an exception). -/
theorem c1_providers_per_10k_null_policy (base : List BaseRow)
    (er : List ErRow) (pop : List PopRow) (prov : List ProvSum)
    (r : MergedRow) (hr : r ∈ mergeDatasets base er pop prov) :
    (r.child_population = none → r.providers_per_10k = PVal.nan) ∧
    (r.child_population = some 0 → r.total_providers = 0 →
      r.providers_per_10k = PVal.nan) ∧
    (r.child_population = some 0 → 0 < r.total_providers →
      r.providers_per_10k = PVal.inf) := by
  obtain ⟨raw, -, -, hcp, -, -, htot, -, -, -, -, hp10k⟩ := mem_addMetrics hr
  refine ⟨fun h0 => ?_, fun h0 htz => ?_, fun h0 htpos => ?_⟩
  · rw [hp10k, hcp.symm.trans h0]
    simp [PVal.ofOpt, PVal.div, PVal.mul, PVal.roundTo]
  · rw [hp10k, hcp.symm.trans h0, ← htot, htz]
    simp [PVal.ofOpt, PVal.div, PVal.mul, PVal.roundTo]
  · rw [hp10k, hcp.symm.trans h0, ← htot]
    have hq : (0 : ℚ) < (r.total_providers : ℚ) := by exact_mod_cast htpos
    simp [PVal.ofOpt, PVal.div, PVal.mul, PVal.roundTo, hq, not_lt.mpr hq.le]

/-- Witness for `c1_providers_per_10k_null_policy` at a concrete merged
record with a null population. -/
theorem c1_providers_per_10k_null_policy_witness :
    ∃ r ∈ mergeDatasets [{ uhf_code := 101, uhf_name := "A", borough := "BX" }]
        [] [] [],
      r.providers_per_10k = PVal.nan := by
  refine ⟨(mergeDatasets [{ uhf_code := 101, uhf_name := "A", borough := "BX" }]
    [] [] []).head (by decide), List.head_mem _, ?_⟩
  exact (c1_providers_per_10k_null_policy _ _ _ _ _ (List.head_mem _)).1 (by decide)

/-! ## C8 — `er_rate_combined` treats missing age-band rates as zero -/

/-- C8: every merged row's `er_rate_combined` is the mean of the two
age-band rates with missing rates read as `0`, rounded to 1 decimal
(line 185) — the opposite of the null propagation used for
`providers_per_10k`. -/
theorem c8_er_rate_combined_missing_as_zero (base : List BaseRow)
    (er : List ErRow) (pop : List PopRow) (prov : List ProvSum)
    (r : MergedRow) (hr : r ∈ mergeDatasets base er pop prov) :
    r.er_rate_combined =
      roundQ 1 ((r.er_rate_under5.getD 0 + r.er_rate_5to17.getD 0) / 2) := by
  obtain ⟨raw, -, -, -, hu5, h517, -, -, -, -, hcomb, -⟩ := mem_addMetrics hr
  rw [hcomb, hu5, h517]

/-- Witness for `c8_er_rate_combined_missing_as_zero`: a suppressed under-5
rate is combined as zero, giving `round((0 + 30)/2, 1) = 15`. -/
theorem c8_er_rate_combined_witness :
    ∃ r ∈ mergeDatasets [{ uhf_code := 101, uhf_name := "A", borough := "BX" }]
        [{ uhf_code := 101, er_rate_under5 := none, er_rate_5to17 := some 30 }]
        [] [],
      r.er_rate_combined =
        roundQ 1 ((r.er_rate_under5.getD 0 + r.er_rate_5to17.getD 0) / 2) ∧
      r.er_rate_combined = 15 := by
  refine ⟨(mergeDatasets [{ uhf_code := 101, uhf_name := "A", borough := "BX" }]
      [{ uhf_code := 101, er_rate_under5 := none, er_rate_5to17 := some 30 }]
      [] []).head (by decide), List.head_mem _, ?_, by decide⟩
  exact c8_er_rate_combined_missing_as_zero _ _ _ _ _ (List.head_mem _)

/-! ## C2 — exactly one output row per base neighborhood -/

/-- C2: with unique neighborhood keys in the (possibly sparse) ER,
population, and provider tables, the merged output has exactly one row per
neighborhood of the 42-row base geography — no duplicates, no omissions —
its code column equal to the base's; a neighborhood with no provider-summary
row gets integer `0` counts and one with no ER row keeps null rates. -/
theorem c2_one_row_per_neighborhood (base : List BaseRow) (er : List ErRow)
    (pop : List PopRow) (prov : List ProvSum)
    (hbase : (base.map (·.uhf_code)).Nodup) (h42 : base.length = 42)
    (her : (er.map (·.uhf_code)).Nodup) (hpop : (pop.map (·.uhf_code)).Nodup)
    (hprov : (prov.map (·.uhf_code)).Nodup) :
    (mergeDatasets base er pop prov).length = 42 ∧
    (mergeDatasets base er pop prov).map (·.uhf_code) = base.map (·.uhf_code) ∧
    (∀ c ∈ base.map (·.uhf_code),
      ((mergeDatasets base er pop prov).filter
        (fun r => r.uhf_code = c)).length = 1) ∧
    (∀ r ∈ mergeDatasets base er pop prov,
      (∀ e ∈ er, e.uhf_code ≠ r.uhf_code) →
        r.er_rate_under5 = none ∧ r.er_rate_5to17 = none) ∧
    (∀ r ∈ mergeDatasets base er pop prov,
      (∀ p ∈ prov, p.uhf_code ≠ r.uhf_code) →
        r.total_providers = 0 ∧ r.pulmonology_count = 0 ∧
        r.allergy_count = 0 ∧ r.pediatrics_count = 0) := by
  have hcode : (mergeDatasets base er pop prov).map (·.uhf_code) =
      base.map (·.uhf_code) := by
    unfold mergeDatasets
    rw [addMetrics_map_code, mergeJoins_eq_map _ _ _ _ her hpop hprov,
      List.map_map]
    rfl
  have hlen : (mergeDatasets base er pop prov).length = 42 := by
    have h := congrArg List.length hcode
    simpa [h42] using h
  refine ⟨hlen, hcode, ?_, ?_, ?_⟩
  · intro c hc
    have h1 : ((mergeDatasets base er pop prov).filter
        (fun r => r.uhf_code = c)).length =
        ((mergeDatasets base er pop prov).map (·.uhf_code)).countP
          (fun x => decide (x = c)) := by
      rw [← List.countP_eq_length_filter, List.countP_map]
      rfl
    rw [h1, hcode]
    have h2 : ((base.map (·.uhf_code)).countP (fun x => decide (x = c))) =
        (base.map (·.uhf_code)).count c := by
      refine List.countP_congr (fun x _ => ?_)
      by_cases hx : x = c <;> simp [hx]
    rw [h2]
    exact List.count_eq_one_of_mem hbase hc
  · intro r hr hner
    rw [mergeDatasets, mergeJoins_eq_map _ _ _ _ her hpop hprov] at hr
    obtain ⟨raw, hraw, hc, -, hu5, h517, -, -, -, -, -, -⟩ := mem_addMetrics hr
    obtain ⟨b, -, rfl⟩ := List.mem_map.mp hraw
    have hnone : er.find? (fun e => e.uhf_code = b.uhf_code) = none := by
      refine List.find?_eq_none.mpr (fun e he => ?_)
      simpa using hner e he ∘ (by simpa [joinedRow] using hc.symm ▸ ·)
    refine ⟨?_, ?_⟩
    · rw [hu5]; simp [joinedRow, hnone]
    · rw [h517]; simp [joinedRow, hnone]
  · intro r hr hnp
    rw [mergeDatasets, mergeJoins_eq_map _ _ _ _ her hpop hprov] at hr
    obtain ⟨raw, hraw, hc, -, -, -, htot, hpu, hal, hpe, -, -⟩ :=
      mem_addMetrics hr
    obtain ⟨b, -, rfl⟩ := List.mem_map.mp hraw
    have hnone : prov.find? (fun p => p.uhf_code = b.uhf_code) = none := by
      refine List.find?_eq_none.mpr (fun p hp => ?_)
      simpa using hnp p hp ∘ (by simpa [joinedRow] using hc.symm ▸ ·)
    refine ⟨?_, ?_, ?_, ?_⟩ <;>
      simp [htot, hpu, hal, hpe, joinedRow, hnone, countOr0]

/-- Witness for `c2_one_row_per_neighborhood`: a 42-row base geography with
codes `1..42`, a single sparse ER row and empty population/provider tables
still yield 42 rows in base order. -/
theorem c2_one_row_per_neighborhood_witness :
    ((List.range 42).map
        (fun i => ({ uhf_code := (i : ℤ) + 1, uhf_name := "n", borough := "b" }
          : BaseRow))).length = 42 ∧
    (mergeDatasets
        ((List.range 42).map
          (fun i => { uhf_code := (i : ℤ) + 1, uhf_name := "n", borough := "b" }))
        [{ uhf_code := 7, er_rate_under5 := none, er_rate_5to17 := some 30 }]
        [] []).length = 42 := by
  refine ⟨by decide, ?_⟩
  exact (c2_one_row_per_neighborhood _ _ _ _ (by decide) (by decide) (by decide)
    (by decide) (by decide)).1

/-! ## C3 — the failure-zone and at-risk flags are exactly the stated
boolean combinations of the two terciles -/

/-- C3: in every classified row, `is_failure_zone` holds iff both terciles
equal 3, and `is_at_risk` holds iff one tercile is 3 and the other 2 — with
a null tercile (pandas `NaN`) comparing unequal to every number, as in the
source's `==` on float columns. -/
theorem c3_flag_rules (rows : List Class5In) (r : ClassRow)
    (hr : r ∈ classify rows) :
    (r.is_failure_zone = true ↔
      r.er_tercile = some 3 ∧ r.access_tercile = some 3) ∧
    (r.is_at_risk = true ↔
      ((r.er_tercile = some 3 ∧ r.access_tercile = some 2) ∨
        (r.er_tercile = some 2 ∧ r.access_tercile = some 3))) := by
  unfold classify at hr
  obtain ⟨rt, -, rfl⟩ := List.mem_map.mp hr
  constructor <;> simp

/-- Witness for `c3_flag_rules`: a 3-row dataset in which the third
neighborhood is in tercile 3 on both dimensions and is flagged as a failure
zone. -/
theorem c3_flag_rules_witness :
    ∃ r ∈ classify [⟨1, some 10, some 30⟩, ⟨2, some 20, some 20⟩,
        ⟨3, some 30, some 10⟩],
      r.is_failure_zone = true := by
  refine ⟨(classify _).getLast (by decide), List.getLast_mem _, ?_⟩
  exact (c3_flag_rules _ _ (List.getLast_mem _)).1.mpr ⟨by decide, by decide⟩

/-! ## C7 — atomic write of output artifacts

The claim says **every** output artifact is written via a temporary file
with atomic replacement.  `io_utils.atomic_write` does satisfy that
contract, and scripts 01–05 (and the metadata sidecars) use it — but
`save_validation_report` in `07_validation.py` (lines 254–256) and the
neighborhoods/providers exports of `06_export_for_web.py` write straight to
the final path with `open(path, "w")`, so a failure mid-write leaves a
truncated artifact at the canonical path.  The claim is corrected
accordingly. -/

/-- C7 (counterexample): the direct write of `save_validation_report` on a
failing serialization replaces the previous complete report with the
truncated prefix — the canonical path holds a partial artifact, refuting
the claim for this output. -/
theorem c7_direct_write_leaves_partial :
    (plain_write [("data/final/validation_report.json", "old complete report")]
        "data/final/validation_report.json" (.fail "truncated prefi")).raised
      = true ∧
    FS.get (plain_write [("data/final/validation_report.json",
        "old complete report")]
        "data/final/validation_report.json" (.fail "truncated prefi")).fs
      "data/final/validation_report.json" = some "truncated prefi" ∧
    some "truncated prefi" ≠ some "old complete report" := by
  exact ⟨rfl, rfl, by decide⟩

/-- C7 (amended): artifacts that go through `io_utils.atomic_write` do get
the claimed guarantee — on success the final path holds exactly the new
content and no temporary file remains; on failure the final path's previous
content is untouched and the temporary file is removed. -/
theorem c7_atomic_write_guarantee (fs : FS) (target temp : String)
    (hne : temp ≠ target) :
    (∀ c, (atomic_write fs target temp (.ok c)).raised = false ∧
      FS.get (atomic_write fs target temp (.ok c)).fs target = some c ∧
      FS.get (atomic_write fs target temp (.ok c)).fs temp = none) ∧
    (∀ c, (atomic_write fs target temp (.fail c)).raised = true ∧
      FS.get (atomic_write fs target temp (.fail c)).fs target =
        FS.get fs target ∧
      FS.get (atomic_write fs target temp (.fail c)).fs temp = none) := by
  have hget_erase_self : ∀ (l : FS) (p : String), FS.get (FS.erase l p) p = none := by
    intro l p
    refine Option.map_eq_none.mpr (List.find?_eq_none.mpr ?_)
    intro e he
    have := (List.mem_filter.mp he).2
    simpa using this
  have hget_erase_ne : ∀ (l : FS) (p q : String), q ≠ p →
      FS.get (FS.erase l p) q = FS.get l q := by
    intro l p q hqp
    induction l with
    | nil => rfl
    | cons a t ih =>
        by_cases hap : a.1 = p
        · have h1 : (a.1 == q) = false := by
            simp [hap]
            exact fun h => (hqp h.symm).elim
          simp_all [FS.erase, FS.get, List.filter_cons, List.find?_cons, hap, h1]
        · by_cases haq : a.1 = q <;>
            simp_all [FS.erase, FS.get, List.filter_cons, List.find?_cons]
  have hget_set_self : ∀ (l : FS) (p : String) (c : String),
      FS.get (FS.set l p c) p = some c := by
    intro l p c
    simp [FS.set, FS.get, List.find?_cons]
  have hget_set_ne : ∀ (l : FS) (p q : String) (c : String), q ≠ p →
      FS.get (FS.set l p c) q = FS.get l q := by
    intro l p q c hqp
    have h1 : ((p : String) == q) = false :=
      beq_eq_false_iff_ne.mpr (fun h => hqp h.symm)
    simp only [FS.set, FS.get, List.find?_cons, h1]
    exact hget_erase_ne l p q hqp
  constructor
  · intro c
    refine ⟨rfl, ?_, ?_⟩
    · exact hget_set_self _ target c
    · rw [atomic_write]
      simp only []
      rw [hget_set_ne _ target temp c hne]
      exact hget_erase_self _ temp
  · intro c
    refine ⟨rfl, ?_, ?_⟩
    · rw [atomic_write]
      simp only []
      rw [hget_erase_ne _ temp target (fun h => hne h.symm),
        hget_set_ne _ temp target c (fun h => hne h.symm),
        hget_set_ne _ temp target "" (fun h => hne h.symm)]
    · exact hget_erase_self _ temp

/-- Witness for `c7_atomic_write_guarantee` at a concrete file system. -/
theorem c7_atomic_write_guarantee_witness :
    (atomic_write [("out.geojson", "v1")] "out.geojson" "out_x.tmp"
        (.ok "v2")).fs.get "out.geojson" = some "v2" ∧
    (atomic_write [("out.geojson", "v1")] "out.geojson" "out_x.tmp"
        (.fail "v2 pre")).fs.get "out.geojson" = some "v1" := by
  have h := c7_atomic_write_guarantee [("out.geojson", "v1")] "out.geojson"
    "out_x.tmp" (by decide)
  exact ⟨(h.1 "v2").2.1, ((h.2 "v2 pre").2.1).trans (by decide)⟩

/-! ## C9 — provider specialty subcounts -/

/-- Split a conjunction of booleans. -/
theorem bAnd_split {a b : Bool} (h : (a && b) = true) : a = true ∧ b = true := by
  simpa using h

/-- Combine a conjunction of booleans. -/
theorem bAnd_intro {a b : Bool} (h1 : a = true) (h2 : b = true) :
    (a && b) = true := by simp [h1, h2]

/-- Two disjoint predicates that both imply a third count at most the
third's count, jointly. -/
theorem countP_disjoint_le {α : Type} (l : List α) (p q r : α → Bool)
    (hdisj : ∀ a ∈ l, ¬(p a = true ∧ q a = true))
    (hpr : ∀ a ∈ l, p a = true → r a = true)
    (hqr : ∀ a ∈ l, q a = true → r a = true) :
    l.countP p + l.countP q ≤ l.countP r := by
  induction l with
  | nil => simp
  | cons a t ih =>
      have ht := ih (fun x hx => hdisj x (List.mem_cons_of_mem a hx))
        (fun x hx => hpr x (List.mem_cons_of_mem a hx))
        (fun x hx => hqr x (List.mem_cons_of_mem a hx))
      have ha := hdisj a (List.mem_cons_self a t)
      have hap := hpr a (List.mem_cons_self a t)
      have haq := hqr a (List.mem_cons_self a t)
      rw [List.countP_cons, List.countP_cons, List.countP_cons]
      by_cases hp : p a = true <;> by_cases hq : q a = true
      · exact absurd ⟨hp, hq⟩ ha
      · simp [hp, hq, hap hp]; omega
      · simp [hp, hq, haq hq]; omega
      · by_cases hr : r a = true <;> simp [hp, hq, hr] <;> omega

/-- Counting a predicate that forces membership in a filter can be done on
the unfiltered list. -/
theorem countP_filter_of_imp {α : Type} (l : List α) (p g : α → Bool)
    (h : ∀ a, p a = true → g a = true) :
    (l.filter g).countP p = l.countP p := by
  rw [List.countP_filter]
  refine List.countP_congr (fun a _ => ?_)
  by_cases hpa : p a = true
  · simp [hpa, h a hpa]
  · simp [hpa]

/-- C9: in every per-neighborhood provider summary, no provider is counted
in both `pediatrics_count` and `pulmonology_count` (the predicates exclude
each other), every provider matching both the pulmonology and the
allergy/immunology rule is counted in both of those subcounts, and each
specialty subcount is at most `total_providers`. -/
theorem c9_specialty_subcounts (ps : List ProviderRow) (s : ProvSum)
    (hs : s ∈ aggregate_providers ps) :
    (∀ d : Option String, ¬(pedsMatch d = true ∧ pulmMatch d = true)) ∧
    s.pediatrics_count + s.pulmonology_count ≤ s.total_providers ∧
    s.pulmonology_count ≤ s.total_providers ∧
    s.allergy_count ≤ s.total_providers ∧
    s.pediatrics_count ≤ s.total_providers ∧
    (ps.filter (fun p => p.uhf_code == some s.uhf_code &&
        pulmMatch p.taxonomy_desc && allergyMatch p.taxonomy_desc)).length ≤
      s.pulmonology_count ∧
    (ps.filter (fun p => p.uhf_code == some s.uhf_code &&
        pulmMatch p.taxonomy_desc && allergyMatch p.taxonomy_desc)).length ≤
      s.allergy_count := by
  have hdisj : ∀ d : Option String, ¬(pedsMatch d = true ∧ pulmMatch d = true) := by
    intro d
    cases hd : pulmMatch d <;> simp [pedsMatch, hd]
  obtain ⟨c, -, rfl⟩ := List.mem_map.mp hs
  constructor
  · exact hdisj
  refine ⟨?_, ?_, ?_, ?_, ?_, ?_⟩
  · exact countP_disjoint_le _ _ _ _
      (fun a _ h => hdisj a.taxonomy_desc
        ⟨(bAnd_split h.1).2, (bAnd_split h.2).2⟩)
      (fun a _ h => (bAnd_split h).1)
      (fun a _ h => (bAnd_split h).1)
  · exact List.countP_mono_left (fun a _ h => (bAnd_split h).1)
  · exact List.countP_mono_left (fun a _ h => (bAnd_split h).1)
  · exact List.countP_mono_left (fun a _ h => (bAnd_split h).1)
  all_goals
    rw [← List.countP_eq_length_filter, ← countP_filter_of_imp ps
      (fun p => p.uhf_code == some c && pulmMatch p.taxonomy_desc &&
        allergyMatch p.taxonomy_desc) (fun p => p.uhf_code.isSome)
      (fun a h => by
        have h1 := (bAnd_split (bAnd_split h).1).1
        cases hu : a.uhf_code with
        | none => rw [hu] at h1; exact absurd h1 (by simp)
        | some z => simp [hu])]
  · exact List.countP_mono_left (fun a _ h => by
      have h1 := bAnd_split h
      exact bAnd_intro (bAnd_split h1.1).1 (bAnd_split h1.1).2)
  · exact List.countP_mono_left (fun a _ h => by
      have h1 := bAnd_split h
      exact bAnd_intro (bAnd_split h1.1).1 h1.2)

/-- Witness for `c9_specialty_subcounts`: a neighborhood with one combined
pulmonology + allergy/immunology provider, one pediatric pulmonologist, and
one provider with no recorded specialty. -/
theorem c9_specialty_subcounts_witness :
    ∃ s ∈ aggregate_providers
      [⟨1, some "Pulmonology, Allergy & Immunology", some 101⟩,
       ⟨2, some "Pediatric Pulmonology", some 101⟩, ⟨3, none, some 101⟩],
      s.pediatrics_count + s.pulmonology_count ≤ s.total_providers ∧
      s.total_providers = 3 ∧ s.pulmonology_count = 2 ∧
      s.allergy_count = 1 ∧ s.pediatrics_count = 0 := by
  refine ⟨(aggregate_providers _).head (by decide), List.head_mem _,
    (c9_specialty_subcounts _ _ (List.head_mem _)).2.1,
    by decide, by decide, by decide, by decide⟩

/-! ## C6 — statistics on undersized groups

The claim says all of Pearson, Spearman, and the Welch t-tests report
null/undefined on groups of fewer than 2 observations rather than raising.
The Welch t-tests do (`nan` propagates through empty-group means and
single-observation variances), and a run with zero failure zones completes —
but `scipy.stats.pearsonr` **raises** `ValueError` when fewer than 2
neighborhoods have both metrics non-null, aborting `correlation_analysis`
before any report is produced.  The claim is corrected accordingly. -/

/-- C6 (counterexample): with only one neighborhood carrying both metrics,
`correlation_analysis` raises scipy's `ValueError` instead of reporting a
null statistic, and the run produces no report. -/
theorem c6_small_sample_correlation_raises :
    (([⟨1, "A", some 10, some 2, some 100, false, ()⟩,
        ⟨2, "B", none, some 3, some 100, false, ()⟩,
        ⟨3, "C", some 12, none, some 100, false, ()⟩] :
          List (V7Row Unit)).filter
      (fun r => r.er_rate_5to17.isSome && r.providers_per_10k.isSome)).length
        = 1 ∧
    run_validation (fun _ _ => (0 : ℚ)) (fun _ => (0 : ℚ))
      [⟨1, "A", some 10, some 2, some 100, false, ()⟩,
       ⟨2, "B", none, some 3, some 100, false, ()⟩,
       ⟨3, "C", some 12, none, some 100, false, ()⟩] none =
      .error "x and y must have length at least 2." := by
  exact ⟨by decide, by rfl⟩

/-- C6 (amended): the Welch t-tests tolerate undersized groups — with zero
failure zones every t statistic is `nan` and the group summaries degrade to
`nan` means — and the run still produces a complete report, **provided** at
least 2 neighborhoods have both metrics non-null (otherwise the Pearson
correlation raises). -/
theorem c6_ttest_tolerates_small_groups {G : Type} (ia : G → G → ℚ)
    (area : G → ℚ) (rows : List (V7Row G))
    (holc : Option (List (HolcZone G)))
    (hvalid : 2 ≤ (rows.filter
      (fun r => r.er_rate_5to17.isSome && r.providers_per_10k.isSome)).length)
    (hnofail : rows.countP (fun r => r.is_failure_zone) = 0) :
    ∃ rep, run_validation ia area rows holc = .ok rep ∧
      rep.ttest.er_rate_t_sq = PVal.nan ∧
      rep.ttest.provider_rate_t_sq = PVal.nan ∧
      rep.ttest.failure_zones.count = 0 ∧
      rep.ttest.failure_zones.mean_er_rate = PVal.nan ∧
      rep.ttest.failure_zones.mean_provider_rate = PVal.nan := by
  have hfail : rows.filter (fun r => r.is_failure_zone) = [] := by
    rw [List.countP_eq_length_filter, List.length_eq_zero] at hnofail
    exact hnofail
  have hlen : ((rows.filter
      (fun r => r.er_rate_5to17.isSome && r.providers_per_10k.isSome)).filterMap
        (·.er_rate_5to17)).length =
      (rows.filter
        (fun r => r.er_rate_5to17.isSome && r.providers_per_10k.isSome)).length := by
    refine length_filterMap_of_isSome _ _ (fun x hx => ?_)
    exact (bAnd_split (List.mem_filter.mp hx).2).1
  have hcorr : ∃ c, correlation_analysis rows = .ok c := by
    unfold correlation_analysis
    rw [if_neg (by omega)]
    exact ⟨_, rfl⟩
  obtain ⟨c, hc⟩ := hcorr
  refine ⟨Report.mk c (failure_zone_ttest rows)
      (redlining_analysis ia area rows holc), ?_, ?_, ?_, ?_, ?_, ?_⟩
  · unfold run_validation
    rw [hc]
  all_goals
    unfold failure_zone_ttest
    rw [hfail]
    simp [welchT2, meanOpt, PVal.roundTo]

/-- Witness for `c6_ttest_tolerates_small_groups`: two fully populated
non-failure neighborhoods produce a complete report with `nan` t
statistics. -/
theorem c6_ttest_tolerates_small_groups_witness :
    ∃ rep, run_validation (G := Unit) (fun _ _ => (0 : ℚ)) (fun _ => (0 : ℚ))
      [⟨1, "A", some 10, some 1, some 100, false, ()⟩,
       ⟨2, "B", some 20, some 2, some 200, false, ()⟩] none = .ok rep ∧
      rep.ttest.er_rate_t_sq = PVal.nan := by
  obtain ⟨rep, h1, h2, -, -, -, -⟩ :=
    c6_ttest_tolerates_small_groups (G := Unit) (fun _ _ => 0) (fun _ => 0)
      [⟨1, "A", some 10, some 1, some 100, false, ()⟩,
       ⟨2, "B", some 20, some 2, some 200, false, ()⟩] none
      (by decide) (by decide)
  exact ⟨rep, h1, h2⟩

/-! ## C10 — redlining correlation needs more than 5 non-null ER rates -/

/-- C10: when the redlining analysis runs (HOLC data present with at least
one grade-D zone) but at most 5 neighborhoods have a non-null ER rate, the
redlining–ER correlation is reported as null, while the analysis itself is
still produced: overlap percentages for all neighborhoods, and the top-5
table. -/
theorem c10_redlining_small_sample {G : Type} (ia : G → G → ℚ)
    (area : G → ℚ) (rows : List (V7Row G)) (zones : List (HolcZone G))
    (hD : (zones.filter (fun z => z.grade == "D")).length ≠ 0)
    (hn : rows.countP (fun r => r.er_rate_5to17.isSome) ≤ 5) :
    ∃ res, redlining_analysis ia area rows (some zones) = some res ∧
      res.correlation_r_sq = none ∧
      res.total_neighborhoods = rows.length ∧
      res.top_redlined.length = min 5 rows.length := by
  show ∃ res, (if (zones.filter (fun z => z.grade == "D")).length = 0 then none
    else _) = some res ∧ _
  rw [if_neg hD]
  refine ⟨_, rfl, ?_, by simp, ?_⟩
  · have hcnt : ∀ (f : V7Row G → RedRow),
        (∀ r, (f r).er_rate = r.er_rate_5to17) →
        ((rows.map f).filter (fun x => x.er_rate.isSome)).length =
          rows.countP (fun r => r.er_rate_5to17.isSome) := by
      intro f hf
      rw [← List.countP_eq_length_filter, List.countP_map]
      exact List.countP_congr (fun a _ => by simp [hf])
    rw [if_neg (by rw [hcnt _ (fun r => rfl)]; omega)]
  · rw [List.length_take, (List.perm_insertionSort _ _).length_eq,
      List.length_map]

/-- Witness for `c10_redlining_small_sample` at a concrete overlay and two
neighborhoods with null ER rates. -/
theorem c10_redlining_small_sample_witness :
    ∃ res, redlining_analysis (G := Unit) (fun _ _ => (1 : ℚ))
        (fun _ => (4 : ℚ))
        [⟨1, "A", none, some 1, some 100, true, ()⟩,
         ⟨2, "B", none, some 2, some 200, false, ()⟩]
        (some [⟨"D", ()⟩, ⟨"B", ()⟩]) = some res ∧
      res.correlation_r_sq = none ∧ res.total_neighborhoods = 2 := by
  obtain ⟨res, h1, h2, h3, -⟩ :=
    c10_redlining_small_sample (G := Unit) (fun _ _ => 1) (fun _ => 4)
      [⟨1, "A", none, some 1, some 100, true, ()⟩,
       ⟨2, "B", none, some 2, some 200, false, ()⟩]
      [⟨"D", ()⟩, ⟨"B", ()⟩] (by decide) (by decide)
  exact ⟨res, h1, h2, h3⟩

/-! ## C4 — the inverted access tercile is antitone in the provider rate -/

/-- Elements of `adjDedup l` come from `l`. -/
theorem mem_adjDedup {α : Type} [DecidableEq α] {l : List α} {x : α}
    (h : x ∈ adjDedup l) : x ∈ l := by
  induction l with
  | nil => simpa [adjDedup] using h
  | cons a t ih =>
      cases t with
      | nil => simpa [adjDedup] using h
      | cons b u =>
          rw [adjDedup] at h
          by_cases hab : a = b
          · rw [if_pos hab] at h
            exact List.mem_cons_of_mem a (ih h)
          · rw [if_neg hab] at h
            rcases List.mem_cons.mp h with rfl | h2
            · exact List.mem_cons_self _ _
            · exact List.mem_cons_of_mem a (ih h2)

/-- `adjDedup` preserves sortedness. -/
theorem adjDedup_sorted {l : List ℚ} (h : l.Sorted (· ≤ ·)) :
    (adjDedup l).Sorted (· ≤ ·) := by
  induction l with
  | nil => simpa [adjDedup] using h
  | cons a t ih =>
      cases t with
      | nil => simpa [adjDedup] using h
      | cons b u =>
          have hs := List.sorted_cons.mp h
          rw [adjDedup]
          by_cases hab : a = b
          · rw [if_pos hab]
            exact ih hs.2
          · rw [if_neg hab]
            refine List.sorted_cons.mpr ⟨?_, ih hs.2⟩
            intro x hx
            exact hs.1 x (mem_adjDedup hx)

/-- The bin index of `_bins_to_cuts` is monotone: against sorted edges, a
smaller value never gets a larger bin. -/
theorem binLabel_mono (edges : List ℚ) (hs : edges.Sorted (· ≤ ·))
    {x y : ℚ} (hxy : x ≤ y) {lx ly : ℕ}
    (hx : binLabel edges x = some lx) (hy : binLabel edges y = some ly) :
    lx ≤ ly := by
  have hhead : ∀ h, edges.head? = some h → ∀ e ∈ edges, h ≤ e := by
    intro h hh e he
    cases edges with
    | nil => simp at hh
    | cons a t =>
        rw [List.head?_cons, Option.some_inj] at hh
        subst hh
        rcases List.mem_cons.mp he with rfl | het
        · exact le_refl _
        · exact (List.sorted_cons.mp hs).1 e het
  have hex : ∀ z l, binLabel edges z = some l →
      binIds edges z ≠ 0 ∧ l = binIds edges z - 1 := by
    intro z l h
    unfold binLabel at h
    by_cases hc : binIds edges z = 0 ∨ binIds edges z = edges.length
    · rw [if_pos hc] at h
      exact absurd h (by simp)
    · rw [if_neg hc] at h
      exact ⟨fun h0 => hc (Or.inl h0), (Option.some_inj.mp h).symm⟩
  obtain ⟨hnex, hlx⟩ := hex x lx hx
  obtain ⟨hney, hly⟩ := hex y ly hy
  by_cases hxh : edges.head? = some x
  · have h1 : binIds edges x = 1 := by rw [binIds, if_pos hxh]
    omega
  · have hbx : binIds edges x = edges.countP (fun e => decide (e < x)) := by
      rw [binIds, if_neg hxh]
    by_cases hyh : edges.head? = some y
    · exfalso
      apply hnex
      rw [hbx]
      refine List.countP_eq_zero.mpr (fun e he => ?_)
      simp only [decide_eq_true_eq, not_lt]
      exact le_trans hxy (hhead y hyh e he)
    · have hby : binIds edges y = edges.countP (fun e => decide (e < y)) := by
        rw [binIds, if_neg hyh]
      have hmono : edges.countP (fun e => decide (e < x)) ≤
          edges.countP (fun e => decide (e < y)) := by
        refine List.countP_mono_left (fun e _ he => ?_)
        simp only [decide_eq_true_eq] at he ⊢
        exact lt_of_lt_of_le he hxy
      omega

/-- The cut points produced by `tercEdges` are sorted. -/
theorem tercEdges_sorted (nonNull : List ℚ) :
    (tercEdges nonNull).Sorted (· ≤ ·) :=
  adjDedup_sorted (List.sorted_insertionSort _ _)

/-- C4: for two neighborhoods `A` and `B` with non-null provider rates and
`rate(A) > rate(B)`, whatever access terciles the classifier assigns them
satisfy `access_tercile(A) ≤ access_tercile(B)`: the access dimension is the
qcut label inverted by `4 - tercile`, and the underlying bin index is
monotone in the rate. -/
theorem c4_access_tercile_antitone (col : List (Option ℚ)) (i j : ℕ)
    (a b : ℚ) (hi : col[i]? = some (some a)) (hj : col[j]? = some (some b))
    (hab : b < a) (ta tb : ℕ)
    (hta : (calculate_terciles col true)[i]? = some (some ta))
    (htb : (calculate_terciles col true)[j]? = some (some tb)) :
    ta ≤ tb := by
  simp only [calculate_terciles, List.getElem?_map, hi, hj, Option.map_some',
    Option.some_bind, Option.some_inj] at hta htb
  obtain ⟨la, hla, hta2⟩ := Option.map_eq_some.mp hta
  obtain ⟨lb, hlb, htb2⟩ := Option.map_eq_some.mp htb
  have hmono : lb ≤ la :=
    binLabel_mono _ (tercEdges_sorted _) (le_of_lt hab) hlb hla
  have h1 : ta = 4 - (la + 1) := by simpa using hta2.symm
  have h2 : tb = 4 - (lb + 1) := by simpa using htb2.symm
  omega

/-- Witness for `c4_access_tercile_antitone`, the spec's concrete scenario:
provider rates `[5.0, 2.5]` give access terciles `1` and `3`. -/
theorem c4_access_tercile_antitone_witness :
    calculate_terciles [some 5, some (5/2)] true = [some 1, some 3] ∧
    (5 : ℚ) > 5/2 ∧ (1 : ℕ) ≤ 3 := by
  refine ⟨by decide, by norm_num, ?_⟩
  exact c4_access_tercile_antitone [some 5, some (5/2)] 0 1 5 (5/2)
    (by decide) (by decide) (by norm_num) 1 3 (by decide) (by decide)

/-! ## C5 — tercile group sizes

Helper facts about the quantile index arithmetic, counting over sorted
lists, and the bin of each value region. -/

/-- `qfloor` is the rational floor. -/
theorem qfloor_eq_floor (q : ℚ) : qfloor q = ⌊q⌋ := by
  rw [Rat.floor_def, qfloor]
  exact Int.fdiv_eq_ediv _ (by positivity)

/-- `qfloor` on a natural number. -/
theorem qfloor_natCast (m : ℕ) : qfloor (m : ℚ) = m := by
  rw [qfloor_eq_floor, Int.floor_natCast]

/-- The interpolation index at `p = k/3`. -/
theorem qIdx_div3 (vs : List ℚ) (k : ℕ) (hn : 1 ≤ vs.length) :
    qIdx vs ((k : ℚ) / 3) = k * (vs.length - 1) / 3 := by
  have hcast : (k : ℚ) / 3 * ((vs.length : ℚ) - 1) =
      ((k * (vs.length - 1) : ℕ) : ℚ) / ((3 : ℕ) : ℚ) := by
    push_cast [hn]
    ring
  rw [qIdx, hcast, qfloor_eq_floor, Rat.floor_natCast_div_natCast]
  omega

/-- The fractional part of the interpolation index is nonnegative. -/
theorem qGamma_nonneg (vs : List ℚ) (p : ℚ) (hp : 0 ≤ p)
    (hn : 1 ≤ vs.length) : 0 ≤ qGamma vs p := by
  have hh : 0 ≤ p * ((vs.length : ℚ) - 1) := by
    have : (1 : ℚ) ≤ (vs.length : ℚ) := by exact_mod_cast hn
    nlinarith
  have hfl := Int.floor_le (p * ((vs.length : ℚ) - 1))
  have htn : ((⌊p * ((vs.length : ℚ) - 1)⌋.toNat : ℕ) : ℚ) =
      ((⌊p * ((vs.length : ℚ) - 1)⌋ : ℤ) : ℚ) := by
    exact_mod_cast congrArg (fun z : ℤ => (z : ℚ))
      (Int.toNat_of_nonneg (Int.floor_nonneg.mpr hh))
  rw [qGamma, qIdx, qfloor_eq_floor, htn]
  linarith

/-- The fractional part of the interpolation index is below one. -/
theorem qGamma_lt_one (vs : List ℚ) (p : ℚ) (hp : 0 ≤ p)
    (hn : 1 ≤ vs.length) : qGamma vs p < 1 := by
  have hh : 0 ≤ p * ((vs.length : ℚ) - 1) := by
    have : (1 : ℚ) ≤ (vs.length : ℚ) := by exact_mod_cast hn
    nlinarith
  have hfl := Int.lt_floor_add_one (p * ((vs.length : ℚ) - 1))
  have htn : ((⌊p * ((vs.length : ℚ) - 1)⌋.toNat : ℕ) : ℚ) =
      ((⌊p * ((vs.length : ℚ) - 1)⌋ : ℤ) : ℚ) := by
    exact_mod_cast congrArg (fun z : ℤ => (z : ℚ))
      (Int.toNat_of_nonneg (Int.floor_nonneg.mpr hh))
  rw [qGamma, qIdx, qfloor_eq_floor, htn]
  linarith

/-- The `p = 0` quantile is the least element. -/
theorem quantileInterp_zero (vs : List ℚ) :
    quantileInterp vs 0 = vs.getD 0 0 := by
  have h0 : qIdx vs 0 = 0 := by
    rw [qIdx, zero_mul, show qfloor 0 = ((0 : ℕ) : ℤ) from qfloor_natCast 0,
      Int.toNat_natCast]
  have hg : qGamma vs 0 = 0 := by
    rw [qGamma, h0, zero_mul]
    norm_num
  rw [quantileInterp, h0, hg, zero_mul, add_zero]

/-- The `p = 1` quantile is the greatest element. -/
theorem quantileInterp_one (vs : List ℚ) (hn : 1 ≤ vs.length) :
    quantileInterp vs 1 = vs.getD (vs.length - 1) 0 := by
  have hcast : (1 : ℚ) * ((vs.length : ℚ) - 1) = ((vs.length - 1 : ℕ) : ℚ) := by
    push_cast [hn]
    ring
  have h0 : qIdx vs 1 = vs.length - 1 := by
    rw [qIdx, hcast, qfloor_natCast, Int.toNat_natCast]
  have hg : qGamma vs 1 = 0 := by
    rw [qGamma, h0, hcast]
    norm_num
  rw [quantileInterp, h0, hg, zero_mul, add_zero]

/-- Strictly sorted lists are strictly monotone at valid positions. -/
theorem sorted_getD_lt (vs : List ℚ) (hs : vs.Sorted (· < ·)) {i j : ℕ}
    (hij : i < j) (hj : j < vs.length) : vs.getD i 0 < vs.getD j 0 := by
  rw [List.getD_eq_getElem vs 0 (lt_trans hij hj), List.getD_eq_getElem vs 0 hj]
  exact List.pairwise_iff_getElem.mp hs i j (lt_trans hij hj) hj hij

/-- Sorted lists are monotone at valid positions. -/
theorem sorted_getD_le (vs : List ℚ) (hs : vs.Sorted (· < ·)) {i j : ℕ}
    (hij : i ≤ j) (hj : j < vs.length) : vs.getD i 0 ≤ vs.getD j 0 := by
  rcases lt_or_eq_of_le hij with h | rfl
  · exact le_of_lt (sorted_getD_lt vs hs h hj)
  · exact le_refl _

/-- Every member of a sorted list is at least the first element. -/
theorem sorted_first_le (vs : List ℚ) (hs : vs.Sorted (· < ·)) :
    ∀ x ∈ vs, vs.getD 0 0 ≤ x := by
  intro x hx
  obtain ⟨i, hi⟩ := List.mem_iff_get.mp hx
  rw [← hi, show vs.get i = vs.getD i 0 from
    (List.getD_eq_getElem vs 0 i.isLt).symm]
  exact sorted_getD_le vs hs (Nat.zero_le _) i.isLt

/-- Every member of a sorted list is at most the last element. -/
theorem sorted_le_last (vs : List ℚ) (hs : vs.Sorted (· < ·)) :
    ∀ x ∈ vs, x ≤ vs.getD (vs.length - 1) 0 := by
  intro x hx
  obtain ⟨i, hi⟩ := List.mem_iff_get.mp hx
  rw [← hi, show vs.get i = vs.getD i 0 from
    (List.getD_eq_getElem vs 0 i.isLt).symm]
  exact sorted_getD_le vs hs (by have := i.isLt; omega) (by have := i.isLt; omega)

/-- Counting trick: a bound sandwiched between consecutive elements of a
strictly sorted list counts exactly the prefix up to the lower one. -/
theorem countP_le_of_sorted_strict (vs : List ℚ) (hs : vs.Sorted (· < ·))
    (k : ℕ) (hk : k < vs.length) (e : ℚ) (hlow : vs.getD k 0 ≤ e)
    (hhigh : ∀ _ : k + 1 < vs.length, e < vs.getD (k + 1) 0) :
    vs.countP (fun x => decide (x ≤ e)) = k + 1 := by
  induction vs generalizing k with
  | nil => exact absurd hk (by simp)
  | cons a t ih =>
      have hst := List.sorted_cons.mp hs
      cases k with
      | zero =>
          have hpa : a ≤ e := hlow
          have ht0 : t.countP (fun x => decide (x ≤ e)) = 0 := by
            refine List.countP_eq_zero.mpr (fun x hx => ?_)
            simp only [decide_eq_true_eq, not_le]
            cases t with
            | nil => exact absurd hx (by simp)
            | cons b u =>
                have hb : e < b := hhigh (by simp)
                rcases List.mem_cons.mp hx with rfl | hxu
                · exact hb
                · exact lt_trans hb ((List.sorted_cons.mp hst.2).1 x hxu)
          rw [List.countP_cons, ht0]
          simp [hpa]
      | succ k' =>
          have hk' : k' < t.length := by
            simpa using hk
          have hlow' : t.getD k' 0 ≤ e := hlow
          have hhigh' : ∀ _ : k' + 1 < t.length, e < t.getD (k' + 1) 0 := by
            intro h
            exact hhigh (by simpa using h)
          have hmem : t.getD k' 0 ∈ t := by
            rw [List.getD_eq_getElem t 0 hk']
            exact List.getElem_mem hk'
          have hpa : a ≤ e := le_trans (le_of_lt (hst.1 _ hmem)) hlow'
          rw [List.countP_cons, ih hst.2 k' hk' hlow' hhigh']
          simp [hpa]

/-- Counting a range `(a, b]` as a difference of prefix counts. -/
theorem countP_range_split (l : List ℚ) (a b : ℚ) (hab : a ≤ b) :
    l.countP (fun x => decide (x ≤ b)) =
      l.countP (fun x => decide (x ≤ a)) +
        l.countP (fun x => decide (a < x) && decide (x ≤ b)) := by
  induction l with
  | nil => rfl
  | cons c t ih =>
      rw [List.countP_cons, List.countP_cons, List.countP_cons, ih]
      by_cases hca : c ≤ a
      · simp [hca, le_trans hca hab, not_lt.mpr hca]
        omega
      · by_cases hcb : c ≤ b <;> simp [hca, hcb, not_le.mp hca] <;> omega

/-- Null cells never satisfy a `some`-valued predicate, so a per-cell count
over a nullable column is a count over its non-null values. -/
theorem countP_optionBind (col : List (Option ℚ)) (g : ℚ → Option ℕ)
    (q : Option ℕ → Bool) (hq : q none = false) :
    col.countP (fun o => q (o.bind g)) =
      (col.filterMap id).countP (fun x => q (g x)) := by
  induction col with
  | nil => rfl
  | cons o t ih =>
      cases o with
      | none => simpa [List.countP_cons, hq] using ih
      | some x => simp [List.countP_cons, ih]

/-- `binLabel` of a value in the lowest bin. -/
theorem binLabel_low {e0 e1 e2 e3 x : ℚ} (h01 : e0 < e1) (h12 : e1 < e2)
    (h23 : e2 < e3) (hx0 : e0 ≤ x) (hx1 : x ≤ e1) :
    binLabel [e0, e1, e2, e3] x = some 0 := by
  have hids : binIds [e0, e1, e2, e3] x = 1 := by
    unfold binIds
    by_cases hx0h : ([e0, e1, e2, e3] : List ℚ).head? = some x
    · rw [if_pos hx0h]
    · rw [if_neg hx0h]
      have hx0' : e0 < x := by
        rcases lt_or_eq_of_le hx0 with h | rfl
        · exact h
        · exact absurd (show ([e0, e1, e2, e3] : List ℚ).head? = some e0 from
            rfl) hx0h
      have h1 : ¬(e1 < x) := not_lt.mpr hx1
      have h2 : ¬(e2 < x) := not_lt.mpr (le_trans hx1 (le_of_lt h12))
      have h3 : ¬(e3 < x) :=
        not_lt.mpr (le_trans hx1 (le_of_lt (lt_trans h12 h23)))
      simp [List.countP_cons, hx0', h1, h2, h3]
  rw [binLabel, hids]
  norm_num

/-- `binLabel` of a value in the middle bin. -/
theorem binLabel_mid {e0 e1 e2 e3 x : ℚ} (h01 : e0 < e1) (h12 : e1 < e2)
    (h23 : e2 < e3) (hx1 : e1 < x) (hx2 : x ≤ e2) :
    binLabel [e0, e1, e2, e3] x = some 1 := by
  have hx0' : e0 < x := lt_trans h01 hx1
  have hids : binIds [e0, e1, e2, e3] x = 2 := by
    unfold binIds
    rw [if_neg (by simpa using ne_of_lt hx0')]
    have h2 : ¬(e2 < x) := not_lt.mpr hx2
    have h3 : ¬(e3 < x) := not_lt.mpr (le_trans hx2 (le_of_lt h23))
    simp [List.countP_cons, hx0', hx1, h2, h3]
  rw [binLabel, hids]
  norm_num

/-- `binLabel` of a value in the highest bin. -/
theorem binLabel_high {e0 e1 e2 e3 x : ℚ} (h01 : e0 < e1) (h12 : e1 < e2)
    (h23 : e2 < e3) (hx2 : e2 < x) (hx3 : x ≤ e3) :
    binLabel [e0, e1, e2, e3] x = some 2 := by
  have hx1 : e1 < x := lt_trans h12 hx2
  have hx0' : e0 < x := lt_trans h01 hx1
  have hids : binIds [e0, e1, e2, e3] x = 3 := by
    unfold binIds
    rw [if_neg (by simpa using ne_of_lt hx0')]
    have h3 : ¬(e3 < x) := not_lt.mpr hx3
    simp [List.countP_cons, hx0', hx1, hx2, h3]
  rw [binLabel, hids]
  norm_num

/-- `adjDedup` of a strictly increasing 4-element list is itself. -/
theorem adjDedup_four {e0 e1 e2 e3 : ℚ} (h01 : e0 < e1) (h12 : e1 < e2)
    (h23 : e2 < e3) : adjDedup [e0, e1, e2, e3] = [e0, e1, e2, e3] := by
  simp [adjDedup, ne_of_lt h01, ne_of_lt h12, ne_of_lt h23]

/-- C5 (counterexample): over 42 neighborhoods, the metric with non-null
values `[1, 2, 2, 2, 3, 4]` (and 36 nulls) has 4 distinct non-null values
(so at least 3) and strictly increasing cut points `[1, 2, 7/3, 4]` — no
duplicate cut points collapse — yet the tercile groups have sizes 4, 0
and 2, while `⌊6/3⌋ = ⌈6/3⌉ = 2`: ties in the data skew the quantile bins
without triggering the `duplicates="drop"` exception, refuting the claimed
`⌊n/3⌋ .. ⌈n/3⌉` bounds. -/
theorem c5_tie_counterexample :
    ((List.replicate 36 (none : Option ℚ) ++
        [some 1, some 2, some 2, some 2, some 3, some 4]).filterMap id) =
      [1, 2, 2, 2, 3, 4] ∧
    ([(1 : ℚ), 2, 2, 2, 3, 4].dedup).length = 4 ∧
    tercEdges [1, 2, 2, 2, 3, 4] = [1, 2, 7/3, 4] ∧
    ([(1 : ℚ), 2, 7/3, 4]).Nodup ∧
    (calculate_terciles (List.replicate 36 (none : Option ℚ) ++
        [some 1, some 2, some 2, some 2, some 3, some 4]) false).countP
      (fun t => t == some 1) = 4 ∧
    (calculate_terciles (List.replicate 36 (none : Option ℚ) ++
        [some 1, some 2, some 2, some 2, some 3, some 4]) false).countP
      (fun t => t == some 2) = 0 ∧
    (calculate_terciles (List.replicate 36 (none : Option ℚ) ++
        [some 1, some 2, some 2, some 2, some 3, some 4]) false).countP
      (fun t => t == some 3) = 2 ∧
    ¬((6 : ℕ) / 3 ≤ 4 ∧ 4 ≤ (6 + 2) / 3) := by
  exact ⟨by decide, by decide, by decide, by decide, by decide, by decide,
    by decide, by decide⟩

/-- C5 (amended): for a metric whose non-null values are pairwise distinct,
with at least 3 of them, the qcut tercile assignment puts between
`⌊n/3⌋` and `⌈n/3⌉` of the `n` non-null neighborhoods into each of the
three groups. -/
theorem c5_tercile_partition_distinct (col : List (Option ℚ))
    (hnodup : (col.filterMap id).Nodup)
    (hn : 3 ≤ (col.filterMap id).length) :
    ∀ b : ℕ, 1 ≤ b → b ≤ 3 →
      (col.filterMap id).length / 3 ≤
        (calculate_terciles col false).countP (fun t => t == some b) ∧
      (calculate_terciles col false).countP (fun t => t == some b) ≤
        ((col.filterMap id).length + 2) / 3 := by
  intro b hb1 hb3
  set nn := col.filterMap id with hnn
  set vs := List.insertionSort (· ≤ ·) nn with hvs
  have hperm : vs.Perm nn := List.perm_insertionSort _ _
  have hlen : vs.length = nn.length := hperm.length_eq
  set n := nn.length with hN
  have hvs_nodup : vs.Nodup := (hperm.nodup_iff).mpr hnodup
  have hs : vs.Sorted (· < ·) :=
    List.Sorted.lt_of_le (List.sorted_insertionSort _ _) hvs_nodup
  set i1 := (n - 1) / 3 with hi1
  set i2 := (2 * (n - 1)) / 3 with hi2
  have hn1 : 1 ≤ vs.length := by omega
  -- index arithmetic facts
  have hi1n : i1 + 1 ≤ n - 1 := by omega
  have hi12 : i1 + 1 ≤ i2 := by omega
  have hi2n : i2 + 1 ≤ n - 1 := by omega
  -- the four cut points
  have hqidx1 : qIdx vs (1 / 3) = i1 := by
    have h := qIdx_div3 vs 1 hn1
    rw [Nat.cast_one] at h
    rw [h, hlen]
    omega
  have hqidx2 : qIdx vs (2 / 3) = i2 := by
    have h := qIdx_div3 vs 2 hn1
    rw [Nat.cast_ofNat] at h
    rw [h, hlen]
  set e0 := quantileInterp vs 0 with he0
  set e1 := quantileInterp vs (1 / 3) with he1
  set e2 := quantileInterp vs (2 / 3) with he2
  set e3 := quantileInterp vs 1 with he3
  have he0v : e0 = vs.getD 0 0 := quantileInterp_zero vs
  have he3v : e3 = vs.getD (n - 1) 0 := by
    rw [he3, quantileInterp_one vs hn1, hlen]
  have hg1lo : 0 ≤ qGamma vs (1 / 3) := qGamma_nonneg vs _ (by norm_num) hn1
  have hg1hi : qGamma vs (1 / 3) < 1 := qGamma_lt_one vs _ (by norm_num) hn1
  have hg2lo : 0 ≤ qGamma vs (2 / 3) := qGamma_nonneg vs _ (by norm_num) hn1
  have hg2hi : qGamma vs (2 / 3) < 1 := qGamma_lt_one vs _ (by norm_num) hn1
  have hgd1 : vs.getD (i1 + 1) (vs.getD i1 0) = vs.getD (i1 + 1) 0 := by
    rw [List.getD_eq_getElem vs _ (by omega), List.getD_eq_getElem vs 0 (by omega)]
  have hgd2 : vs.getD (i2 + 1) (vs.getD i2 0) = vs.getD (i2 + 1) 0 := by
    rw [List.getD_eq_getElem vs _ (by omega), List.getD_eq_getElem vs 0 (by omega)]
  have he1v : e1 = vs.getD i1 0 +
      qGamma vs (1 / 3) * (vs.getD (i1 + 1) 0 - vs.getD i1 0) := by
    rw [he1, quantileInterp, hqidx1, hgd1]
  have he2v : e2 = vs.getD i2 0 +
      qGamma vs (2 / 3) * (vs.getD (i2 + 1) 0 - vs.getD i2 0) := by
    rw [he2, quantileInterp, hqidx2, hgd2]
  have hv1 : vs.getD i1 0 < vs.getD (i1 + 1) 0 :=
    sorted_getD_lt vs hs (by omega) (by omega)
  have hv2 : vs.getD i2 0 < vs.getD (i2 + 1) 0 :=
    sorted_getD_lt vs hs (by omega) (by omega)
  have hE1low : vs.getD i1 0 ≤ e1 := by
    rw [he1v]
    have h := mul_nonneg hg1lo (sub_nonneg.mpr (le_of_lt hv1))
    linarith
  have hE1high : e1 < vs.getD (i1 + 1) 0 := by
    rw [he1v]
    have h := mul_lt_mul_of_pos_right hg1hi (sub_pos.mpr hv1)
    rw [one_mul] at h
    linarith
  have hE2low : vs.getD i2 0 ≤ e2 := by
    rw [he2v]
    have h := mul_nonneg hg2lo (sub_nonneg.mpr (le_of_lt hv2))
    linarith
  have hE2high : e2 < vs.getD (i2 + 1) 0 := by
    rw [he2v]
    have h := mul_lt_mul_of_pos_right hg2hi (sub_pos.mpr hv2)
    rw [one_mul] at h
    linarith
  -- the cut points are strictly increasing
  have h01 : e0 < e1 := by
    by_cases hz : i1 = 0
    · have hn3 : n = 3 := by omega
      have hg1 : qGamma vs (1 / 3) = 2 / 3 := by
        have hlen3 : (vs.length : ℚ) = 3 := by
          rw [hlen, hn3]
          norm_num
        rw [qGamma, hqidx1, hz, hlen3]
        norm_num
      have hlt : vs.getD 0 0 < vs.getD (0 + 1) 0 :=
        sorted_getD_lt vs hs (by omega) (by omega)
      rw [he0v, he1v, hz, hg1]
      linarith
    · have : vs.getD 0 0 < vs.getD i1 0 :=
        sorted_getD_lt vs hs (by omega) (by omega)
      rw [he0v]
      linarith
  have h12 : e1 < e2 := by
    have : vs.getD (i1 + 1) 0 ≤ vs.getD i2 0 :=
      sorted_getD_le vs hs hi12 (by omega)
    linarith
  have h23 : e2 < e3 := by
    have : vs.getD (i2 + 1) 0 ≤ vs.getD (n - 1) 0 :=
      sorted_getD_le vs hs (by omega) (by omega)
    rw [he3v]
    linarith
  -- the edge list survives sorting and deduplication
  have hsorted4 : ([e0, e1, e2, e3] : List ℚ).Sorted (· ≤ ·) := by
    show List.Pairwise (· ≤ ·) [e0, e1, e2, e3]
    refine List.Pairwise.cons ?_ (List.Pairwise.cons ?_
      (List.Pairwise.cons ?_ (List.pairwise_singleton _ _)))
    · intro x hx
      rcases List.mem_cons.mp hx with rfl | hx
      · exact le_of_lt h01
      rcases List.mem_cons.mp hx with rfl | hx
      · exact le_of_lt (lt_trans h01 h12)
      rcases List.mem_cons.mp hx with rfl | hx
      · exact le_of_lt (lt_trans (lt_trans h01 h12) h23)
      · exact absurd hx (List.not_mem_nil x)
    · intro x hx
      rcases List.mem_cons.mp hx with rfl | hx
      · exact le_of_lt h12
      rcases List.mem_cons.mp hx with rfl | hx
      · exact le_of_lt (lt_trans h12 h23)
      · exact absurd hx (List.not_mem_nil x)
    · intro x hx
      rcases List.mem_cons.mp hx with rfl | hx
      · exact le_of_lt h23
      · exact absurd hx (List.not_mem_nil x)
  have hedges : tercEdges nn = [e0, e1, e2, e3] := by
    show adjDedup (List.insertionSort (· ≤ ·) [e0, e1, e2, e3]) = _
    rw [List.Sorted.insertionSort_eq hsorted4, adjDedup_four h01 h12 h23]
  -- pointwise bin of every data value
  have hpt : ∀ x ∈ vs, binLabel (tercEdges nn) x =
      if x ≤ e1 then some 0 else if x ≤ e2 then some 1 else some 2 := by
    intro x hx
    have hx0 : e0 ≤ x := by
      rw [he0v]
      exact sorted_first_le vs hs x hx
    have hx3 : x ≤ e3 := by
      rw [he3v, show n - 1 = vs.length - 1 by omega]
      exact sorted_le_last vs hs x hx
    rw [hedges]
    by_cases hle1 : x ≤ e1
    · rw [if_pos hle1]
      exact binLabel_low h01 h12 h23 hx0 hle1
    · rw [if_neg hle1]
      by_cases hle2 : x ≤ e2
      · rw [if_pos hle2]
        exact binLabel_mid h01 h12 h23 (not_le.mp hle1) hle2
      · rw [if_neg hle2]
        exact binLabel_high h01 h12 h23 (not_le.mp hle2) hx3
  -- transfer the group count to a count over the sorted values
  have hcount : ∀ q : Option ℕ → Bool, q none = false →
      (calculate_terciles col false).countP q =
        vs.countP (fun x => q ((binLabel (tercEdges nn) x).map (· + 1))) := by
    intro q hq
    have h1 : col.countP
        (fun o => q ((o.bind fun x => (binLabel (tercEdges nn) x).map (· + 1))))
        = nn.countP
          (fun x => q ((binLabel (tercEdges nn) x).map (· + 1))) :=
      countP_optionBind col _ _ hq
    have hmap : (calculate_terciles col false).countP q = col.countP
        (fun o => q ((o.bind fun x =>
          (binLabel (tercEdges nn) x).map (· + 1)))) := by
      show (List.map _ col).countP q = _
      rw [List.countP_map]
      rfl
    exact hmap.trans (h1.trans (hperm.countP_eq _).symm)
  -- prefix counts at the two interior cut points
  have hc1 : vs.countP (fun x => decide (x ≤ e1)) = i1 + 1 :=
    countP_le_of_sorted_strict vs hs i1 (by omega) e1 hE1low (fun _ => hE1high)
  have hc2 : vs.countP (fun x => decide (x ≤ e2)) = i2 + 1 :=
    countP_le_of_sorted_strict vs hs i2 (by omega) e2 hE2low (fun _ => hE2high)
  -- settle each tercile
  have hn' : 3 ≤ nn.length := hn
  obtain ⟨m, hm⟩ : ∃ m, nn.length = m + 3 := ⟨nn.length - 3, by omega⟩
  have hI1 : i1 = (m + 2) / 3 := by
    rw [hi1, hN, hm]
    omega
  have hI2 : i2 = (2 * m + 4) / 3 := by
    rw [hi2, hN, hm]
    omega
  interval_cases b
  · have hgrp : (calculate_terciles col false).countP (fun t => t == some 1) =
        vs.countP (fun x => decide (x ≤ e1)) := by
      rw [hcount _ (by simp)]
      refine List.countP_congr (fun x hx => ?_)
      rw [hpt x hx]
      by_cases hle1 : x ≤ e1
      · simp [hle1]
      · by_cases hle2 : x ≤ e2 <;> simp [hle1, hle2]
    have hgoal : nn.length / 3 ≤ (m + 2) / 3 + 1 ∧
        (m + 2) / 3 + 1 ≤ (nn.length + 2) / 3 := by
      rw [hm]
      omega
    rw [hgrp, hc1, hI1]
    exact hgoal
  · have hgrp : (calculate_terciles col false).countP (fun t => t == some 2) =
        vs.countP (fun x => decide (e1 < x) && decide (x ≤ e2)) := by
      rw [hcount _ (by simp)]
      refine List.countP_congr (fun x hx => ?_)
      rw [hpt x hx]
      by_cases hle1 : x ≤ e1
      · simp [hle1, not_lt.mpr hle1]
      · by_cases hle2 : x ≤ e2 <;> simp [hle1, hle2, not_le.mp hle1]
    have hsplit := countP_range_split vs e1 e2 (le_of_lt h12)
    have hd : vs.countP (fun x => decide (e1 < x) && decide (x ≤ e2)) =
        i2 - i1 := by omega
    have hgoal : nn.length / 3 ≤ (2 * m + 4) / 3 - (m + 2) / 3 ∧
        (2 * m + 4) / 3 - (m + 2) / 3 ≤ (nn.length + 2) / 3 := by
      rw [hm]
      omega
    rw [hgrp, hd, hI1, hI2]
    exact hgoal
  · have hgrp : (calculate_terciles col false).countP (fun t => t == some 3) =
        vs.countP (fun x => decide (e2 < x)) := by
      rw [hcount _ (by simp)]
      refine List.countP_congr (fun x hx => ?_)
      rw [hpt x hx]
      by_cases hle1 : x ≤ e1
      · simp [hle1, not_lt.mpr (le_trans hle1 (le_of_lt h12))]
      · by_cases hle2 : x ≤ e2
        · simp [hle1, hle2, not_lt.mpr hle2]
        · simp [hle1, hle2, not_le.mp hle2]
    have hneg : vs.countP (fun x => decide (e2 < x)) =
        vs.countP (fun x => !(decide (x ≤ e2))) := by
      refine List.countP_congr (fun x hx => ?_)
      by_cases hle2 : x ≤ e2
      · simp [hle2, not_lt.mpr hle2]
      · simp [hle2, not_le.mp hle2]
    have htot := List.length_eq_countP_add_countP
      (fun x => decide (x ≤ e2)) (l := vs)
    have hcompl : vs.countP (fun a => decide ¬(decide (a ≤ e2) = true)) =
        vs.countP (fun x => !(decide (x ≤ e2))) := by
      refine List.countP_congr (fun x hx => ?_)
      by_cases hle2 : x ≤ e2 <;> simp [hle2]
    have hc3 : vs.countP (fun x => !(decide (x ≤ e2))) =
        vs.length - (i2 + 1) := by omega
    have hlen' : vs.length = m + 3 := by
      rw [hlen, hN, hm]
    have hgoal : nn.length / 3 ≤ (m + 3) - ((2 * m + 4) / 3 + 1) ∧
        (m + 3) - ((2 * m + 4) / 3 + 1) ≤ (nn.length + 2) / 3 := by
      rw [hm]
      omega
    rw [hgrp, hneg, hc3, hI2, hlen']
    exact hgoal

/-- Witness for `c5_tercile_partition_distinct`: six distinct values split
into tercile groups of 2, 2 and 2. -/
theorem c5_tercile_partition_distinct_witness :
    ∃ c, (calculate_terciles
        [some 1, some 2, some 3, some 4, some 5, some 6] false).countP
      (fun t => t == some 1) = c ∧ c = 2 ∧
      ([some 1, some 2, some 3, some 4, some 5, some 6].filterMap
        (id : Option ℚ → Option ℚ)).length / 3 ≤ c ∧
      c ≤ (([some 1, some 2, some 3, some 4, some 5, some 6].filterMap
        (id : Option ℚ → Option ℚ)).length + 2) / 3 := by
  obtain ⟨h1, h2⟩ := c5_tercile_partition_distinct
    [some 1, some 2, some 3, some 4, some 5, some 6] (by decide) (by decide)
    1 (by decide) (by decide)
  exact ⟨_, rfl, by decide, h1, h2⟩

end AsthmaMap
